import Mathlib

/-!
# A verification model of the `zifu` ZIP file-name encoding repairer

Byte-level shallow embedding of the repository's core: the EOCD locator
(`zip_eocd.rs`), the central-directory parser/serializer
(`zip_central_directory.rs`), the local-file-header accessor
(`zip_local_file_header.rs`), the archive model (`lib.rs` of `zifu_core`,
and the older `src/lib.rs` where noted), and the file-name decoder framework
(`filename_decoder.rs`).

A byte source is a `List Nat` whose members are below 256 (`bytesLt`).
Machine integers are `Nat` with explicit `% 2^w` where the source truncates.
Fallible code returns `Except ZipReadError`; the error reason strings of the
source are dropped, only the variant is modelled.
-/

/-- Bytes of the data stream are below 256. -/
def bytesLt (d : List Nat) : Prop := ∀ b ∈ d, b < 256

instance : DecidablePred bytesLt := fun d =>
  decidable_of_iff (∀ b ∈ d, b < 256) Iff.rfl

/-- Byte at position `p` (0 when out of range; parsers guard ranges). -/
def byteAtD (d : List Nat) (p : Nat) : Nat := d.getD p 0

/-- Little-endian `u16` at position `p`, as `read_u16::<LE>` reads it. -/
def u16At (d : List Nat) (p : Nat) : Nat := byteAtD d p + 256 * byteAtD d (p + 1)

/-- Little-endian `u32` at position `p`, as `read_u32::<LE>` reads it. -/
def u32At (d : List Nat) (p : Nat) : Nat := u16At d p + 65536 * u16At d (p + 2)

/-- Little-endian bytes of a `u16`, as `write_u16::<LE>` writes them. -/
def w16 (v : Nat) : List Nat := [v % 256, v / 256 % 256]

/-- Little-endian bytes of a `u32`, as `write_u32::<LE>` writes them. -/
def w32 (v : Nat) : List Nat := [v % 256, v / 256 % 256, v / 65536 % 256, v / 16777216 % 256]

/-- The bytes of `d` from position `a` (inclusive) to `b` (exclusive),
clipped at the end of the data: what a bounded sequence of reads returns. -/
def extractBytes (d : List Nat) (a b : Nat) : List Nat := (d.drop a).take (b - a)

/-- `ZipReadError` of `zip_error.rs`; reason strings are dropped. -/
inductive ZipReadError where
  /-- `ZipReadError::IOError` (an `std::io::Error` passed through). -/
  | ioError : ZipReadError
  /-- `ZipReadError::InvalidZipArchive`. -/
  | invalidZipArchive : ZipReadError
  /-- `ZipReadError::UnsupportedZipArchive`. -/
  | unsupportedZipArchive : ZipReadError
deriving Repr, DecidableEq

instance {ε α : Type} [DecidableEq ε] [DecidableEq α] : DecidableEq (Except ε α) := fun a b =>
  match a, b with
  | .ok x, .ok y => decidable_of_iff (x = y) (by simp)
  | .error x, .error y => decidable_of_iff (x = y) (by simp)
  | .ok _, .error _ => isFalse (by simp)
  | .error _, .ok _ => isFalse (by simp)

/-! ## EOCD (`zip_eocd.rs`) -/

/-- `EOCD_MAGIC = [0x50, 0x4b, 0x5, 0x6]`. -/
def EOCD_MAGIC : List Nat := [0x50, 0x4b, 0x5, 0x6]

/-- `ZipEOCD` of `zip_eocd.rs`. -/
structure ZipEOCD where
  eocd_disk_index : Nat
  cd_start_disk_index : Nat
  n_cd_entries_in_disk : Nat
  n_cd_entries : Nat
  cd_size : Nat
  cd_starting_position : Nat
  comment_length : Nat
  comment : List Nat
  starting_position_with_signature : Nat
  starting_position_without_signature : Nat
deriving Repr, DecidableEq

/-- `ZipEOCD::empty`. -/
def ZipEOCD.empty : ZipEOCD :=
  { eocd_disk_index := 0
    cd_start_disk_index := 0
    n_cd_entries_in_disk := 0
    n_cd_entries := 0
    cd_size := 0
    cd_starting_position := 0
    comment_length := 0
    comment := []
    starting_position_with_signature := 0
    starting_position_without_signature := 0 }

/-- `ZipEOCD::from_reader_next_to_signature`, with the reader at `rpos`
(just past the magic).  Reads the 16 bytes of fixed fields and the `u16`
comment length (any of these hitting end-of-file is an `io::Error`, which the
caller's `?` turns into `ZipReadError::IOError`), then
`take(comment_length + 1).read_to_end(&mut self.comment)`, which APPENDS up
to `comment_length + 1` bytes to the comment already held by `self` and
returns the count actually read.  `Ok(true)` exactly when the count equals
`comment_length`.  Returns the updated record and the new read position. -/
def ZipEOCD.from_reader_next_to_signature (d : List Nat) (rpos : Nat) (e : ZipEOCD) :
    Except ZipReadError (Bool × ZipEOCD × Nat) :=
  if rpos + 18 ≤ d.length then
    let cl := u16At d (rpos + 16)
    let endp := min (rpos + 18 + (cl + 1)) d.length
    let got := endp - (rpos + 18)
    .ok (got == cl,
      { eocd_disk_index := u16At d rpos
        cd_start_disk_index := u16At d (rpos + 2)
        n_cd_entries_in_disk := u16At d (rpos + 4)
        n_cd_entries := u16At d (rpos + 6)
        cd_size := u32At d (rpos + 8)
        cd_starting_position := u32At d (rpos + 12)
        comment_length := cl
        comment := e.comment ++ extractBytes d (rpos + 18) endp
        starting_position_with_signature := rpos - 4
        starting_position_without_signature := rpos }, endp)
  else .error .ioError

/-- `std::mem::size_of::<ZipEOCD>()` on a 64-bit platform: 5 x u16 + 2 x u32 +
`Vec<u8>` (24) + 2 x u64, padded to alignment 8 = 64.  Only enters the left
bound of the magic-number scan. -/
def eocdStructSize : Nat := 64

/-- The left bound of `ZipEOCD::from_reader`'s forward scan:
`zip_size.checked_sub(u16::MAX + size_of::<ZipEOCD>() + EOCD_MAGIC.len()).unwrap_or(0)`
(`Nat` subtraction saturates at 0 just as `checked_sub(..).unwrap_or(0)`). -/
def scanLB (d : List Nat) : Nat := d.length - (65535 + eocdStructSize + 4)

/-- The `while read.read_exact(..).is_ok()` loop of `ZipEOCD::from_reader`.
`rpos` is the reader position, `pos` the loop's own `pos` variable, `point`
its `eocd_magic_point`.  One byte is read per iteration: on a mismatch the
match point resets (to 1 when the byte is `0x50`); once four magic bytes
matched, the candidate record is parsed; a verified candidate is returned, a
failed one makes the loop seek back to `pos` and reset the match point.  The
`fuel` argument only makes the recursion structural: every iteration
increments `pos`, the loop can only continue while `pos ≤ d.length + 1`, and
`from_reader` passes enough fuel that exhaustion coincides with the loop's
own exit (which returns `InvalidZipArchive`, the EOCD-not-found error). -/
def ZipEOCD.scanLoop (d : List Nat) :
    Nat → ZipEOCD → Nat → Nat → Nat → Except ZipReadError ZipEOCD
  | 0, _, _, _, _ => .error .invalidZipArchive
  | fuel + 1, e, rpos, pos, point =>
    match d.get? rpos with
    | none => .error .invalidZipArchive
    | some b =>
      if EOCD_MAGIC.getD point 0 ≠ b then
        ZipEOCD.scanLoop d fuel e (rpos + 1) (pos + 1) (if b = 0x50 then 1 else 0)
      else if point + 1 ≥ 4 then
        match ZipEOCD.from_reader_next_to_signature d (rpos + 1) e with
        | .error err => .error err
        | .ok (true, e2, _) => .ok e2
        | .ok (false, e2, _) => ZipEOCD.scanLoop d fuel e2 pos (pos + 1) 0
      else
        ZipEOCD.scanLoop d fuel e (rpos + 1) (pos + 1) (point + 1)

/-- `ZipEOCD::from_reader`: seeks to the scan's left bound and runs the
forward scan from there with an empty record. -/
def ZipEOCD.from_reader (d : List Nat) : Except ZipReadError ZipEOCD :=
  ZipEOCD.scanLoop d (d.length + 2 - scanLB d) ZipEOCD.empty (scanLB d) (scanLB d) 0

/-- A position `p` carries the four EOCD magic bytes. -/
def magicAt (d : List Nat) (p : Nat) : Prop := extractBytes d p (p + 4) = EOCD_MAGIC

instance : ∀ d p, Decidable (magicAt d p) := fun d p =>
  decidable_of_iff (extractBytes d p (p + 4) = EOCD_MAGIC) Iff.rfl

/-- A candidate EOCD at magic position `p` verifies: its fixed fields fit and
reading one byte past its declared comment hits end-of-file exactly. -/
def verifiesAt (d : List Nat) (p : Nat) : Prop :=
  p + 22 ≤ d.length ∧ d.length = p + 22 + u16At d (p + 20)

instance : ∀ d p, Decidable (verifiesAt d p) := fun d p =>
  decidable_of_iff (p + 22 ≤ d.length ∧ d.length = p + 22 + u16At d (p + 20)) Iff.rfl

/-! ## Central directory (`zip_central_directory.rs`) -/

/-- `CD_MAGIC = [0x50, 0x4b, 0x1, 0x2]`. -/
def CD_MAGIC : List Nat := [0x50, 0x4b, 0x1, 0x2]

/-- `DATA_ENCRYPTED_FLAG_BIT`: bit #0 of the general purpose flags. -/
def DATA_ENCRYPTED_FLAG_BIT : Nat := 0x0001

/-- `DATA_DESCRIPTOR_EXISTS_FLAG_BIT`: bit #3 of the general purpose flags. -/
def DATA_DESCRIPTOR_EXISTS_FLAG_BIT : Nat := 0x0008

/-- `UTF8_FLAG_BIT`: bit #11 of the general purpose flags. -/
def UTF8_FLAG_BIT : Nat := 0x0800

/-- `ZipCDEntry` of `zip_central_directory.rs`. -/
structure ZipCDEntry where
  version_made_by : Nat
  version_required_to_extract : Nat
  general_purpose_flags : Nat
  compression_method : Nat
  last_mod_time : Nat
  last_mod_date : Nat
  crc32 : Nat
  compressed_size : Nat
  uncompressed_size : Nat
  file_name_length : Nat
  extra_field_length : Nat
  file_comment_length : Nat
  disk_number_start : Nat
  internal_file_attributes : Nat
  external_file_attributes : Nat
  local_header_position : Nat
  file_name_raw : List Nat
  extra_field : List Nat
  file_comment : List Nat
  starting_position_with_signature : Nat
  starting_position_without_signature : Nat
deriving Repr, DecidableEq

/-- `ZipCDEntry::empty`. -/
def ZipCDEntry.empty : ZipCDEntry :=
  { version_made_by := 0
    version_required_to_extract := 0
    general_purpose_flags := 0
    compression_method := 0
    last_mod_time := 0
    last_mod_date := 0
    crc32 := 0
    compressed_size := 0
    uncompressed_size := 0
    file_name_length := 0
    extra_field_length := 0
    file_comment_length := 0
    disk_number_start := 0
    internal_file_attributes := 0
    external_file_attributes := 0
    local_header_position := 0
    file_name_raw := []
    extra_field := []
    file_comment := []
    starting_position_with_signature := 0
    starting_position_without_signature := 0 }

/-- `ZipCDEntry::set_utf8_encoded_flag`: `general_purpose_flags |= UTF8_FLAG_BIT`. -/
def ZipCDEntry.set_utf8_encoded_flag (c : ZipCDEntry) : ZipCDEntry :=
  { c with general_purpose_flags := c.general_purpose_flags ||| UTF8_FLAG_BIT }

/-- `ZipCDEntry::set_file_name_from_slice`: `file_name_length = name.len() as u16`
(the `as u16` cast truncates modulo 2^16) and the raw buffer is replaced. -/
def ZipCDEntry.set_file_name_from_slice (c : ZipCDEntry) (name : List Nat) : ZipCDEntry :=
  { c with file_name_length := name.length % 65536, file_name_raw := name }

/-- `ZipCDEntry::set_file_coment_from_slice` (sic): same shape for the comment. -/
def ZipCDEntry.set_file_coment_from_slice (c : ZipCDEntry) (comment : List Nat) : ZipCDEntry :=
  { c with file_comment_length := comment.length % 65536, file_comment := comment }

/-- `ZipCDEntry::is_encoded_in_utf8`: `(UTF8_FLAG_BIT & flags) != 0`. -/
def ZipCDEntry.is_encoded_in_utf8 (c : ZipCDEntry) : Bool :=
  UTF8_FLAG_BIT &&& c.general_purpose_flags != 0

/-- `ZipCDEntry::is_encrypted_data`: `(DATA_ENCRYPTED_FLAG_BIT & flags) != 0`. -/
def ZipCDEntry.is_encrypted_data (c : ZipCDEntry) : Bool :=
  DATA_ENCRYPTED_FLAG_BIT &&& c.general_purpose_flags != 0

/-- `ZipCDEntry::check_unsupported`: a non-zero starting disk number or the
encrypted-data flag is `UnsupportedZipArchive`. -/
def ZipCDEntry.check_unsupported (c : ZipCDEntry) : Except ZipReadError Unit :=
  if c.disk_number_start ≠ 0 then .error .unsupportedZipArchive
  else if c.is_encrypted_data then .error .unsupportedZipArchive
  else .ok ()

/-- The 42 fixed bytes of a central-directory entry as
`read_from_eocd_next_signature` reads them into `self` (buffers still
empty), with the reader at `rpos` just past the magic. -/
def ZipCDEntry.parseFixed (d : List Nat) (rpos : Nat) : ZipCDEntry :=
  { version_made_by := u16At d rpos
    version_required_to_extract := u16At d (rpos + 2)
    general_purpose_flags := u16At d (rpos + 4)
    compression_method := u16At d (rpos + 6)
    last_mod_time := u16At d (rpos + 8)
    last_mod_date := u16At d (rpos + 10)
    crc32 := u32At d (rpos + 12)
    compressed_size := u32At d (rpos + 16)
    uncompressed_size := u32At d (rpos + 20)
    file_name_length := u16At d (rpos + 24)
    extra_field_length := u16At d (rpos + 26)
    file_comment_length := u16At d (rpos + 28)
    disk_number_start := u16At d (rpos + 30)
    internal_file_attributes := u16At d (rpos + 32)
    external_file_attributes := u32At d (rpos + 34)
    local_header_position := u32At d (rpos + 38)
    file_name_raw := []
    extra_field := []
    file_comment := []
    starting_position_with_signature := rpos - 4
    starting_position_without_signature := rpos }

/-- The entry with its name / extra-field / comment buffers filled from the
declared lengths. -/
def ZipCDEntry.withBuffers (d : List Nat) (rpos : Nat) : ZipCDEntry :=
  { ZipCDEntry.parseFixed d rpos with
    file_name_raw := extractBytes d (rpos + 42)
      (rpos + 42 + (ZipCDEntry.parseFixed d rpos).file_name_length)
    extra_field := extractBytes d (rpos + 42 + (ZipCDEntry.parseFixed d rpos).file_name_length)
      (rpos + 42 + (ZipCDEntry.parseFixed d rpos).file_name_length
        + (ZipCDEntry.parseFixed d rpos).extra_field_length)
    file_comment := extractBytes d
      (rpos + 42 + (ZipCDEntry.parseFixed d rpos).file_name_length
        + (ZipCDEntry.parseFixed d rpos).extra_field_length)
      (rpos + 42 + (ZipCDEntry.parseFixed d rpos).file_name_length
        + (ZipCDEntry.parseFixed d rpos).extra_field_length
        + (ZipCDEntry.parseFixed d rpos).file_comment_length) }

/-- `ZipCDEntry::read_from_eocd_next_signature`, with the reader at `rpos`
(just past the magic).  The 42 bytes of fixed fields are read first (EOF
inside them is an `io::Error`), `check_unsupported` runs BEFORE the name,
extra-field and comment buffers are read, and each buffer shorter than its
declared length is `InvalidZipArchive`.  Returns the entry and the position
past it. -/
def ZipCDEntry.read_from_eocd_next_signature (d : List Nat) (rpos : Nat) :
    Except ZipReadError (ZipCDEntry × Nat) :=
  if rpos + 42 ≤ d.length then
    match (ZipCDEntry.parseFixed d rpos).check_unsupported with
    | .error err => .error err
    | .ok _ =>
      if rpos + 42 + (ZipCDEntry.parseFixed d rpos).file_name_length ≤ d.length then
        if rpos + 42 + (ZipCDEntry.parseFixed d rpos).file_name_length
            + (ZipCDEntry.parseFixed d rpos).extra_field_length ≤ d.length then
          if rpos + 42 + (ZipCDEntry.parseFixed d rpos).file_name_length
              + (ZipCDEntry.parseFixed d rpos).extra_field_length
              + (ZipCDEntry.parseFixed d rpos).file_comment_length ≤ d.length then
            .ok (ZipCDEntry.withBuffers d rpos,
              rpos + 42 + (ZipCDEntry.parseFixed d rpos).file_name_length
                + (ZipCDEntry.parseFixed d rpos).extra_field_length
                + (ZipCDEntry.parseFixed d rpos).file_comment_length)
          else .error .invalidZipArchive
        else .error .invalidZipArchive
      else .error .invalidZipArchive
  else .error .ioError

/-- `ZipCDEntry::read_and_generate_from_signature`, with the reader at the
magic position `p`: `read_exact` of 4 bytes (EOF is an `io::Error`), a wrong
magic is `InvalidZipArchive`, then the body parse. -/
def ZipCDEntry.read_and_generate_from_signature (d : List Nat) (p : Nat) :
    Except ZipReadError (ZipCDEntry × Nat) :=
  if p + 4 ≤ d.length then
    if extractBytes d p (p + 4) = CD_MAGIC then
      ZipCDEntry.read_from_eocd_next_signature d (p + 4)
    else .error .invalidZipArchive
  else .error .ioError

/-- The `for _ in 0..eocd.n_cd_entries` loop of `ZipCDEntry::all_from_eocd`:
parses `n` entries starting at `p`, returning them with the final read
position. -/
def ZipCDEntry.cdLoopAux (d : List Nat) : Nat → Nat → Except ZipReadError (List ZipCDEntry × Nat)
  | p, 0 => .ok ([], p)
  | p, n + 1 =>
    match ZipCDEntry.read_and_generate_from_signature d p with
    | .error err => .error err
    | .ok (c, q) =>
      match ZipCDEntry.cdLoopAux d q n with
      | .error err => .error err
      | .ok (l, r) => .ok (c :: l, r)

/-- `ZipCDEntry::all_from_eocd`: seek to `eocd.cd_starting_position`, parse
`eocd.n_cd_entries` entries, and require the final read position to equal the
EOCD's own signature position, else `UnsupportedZipArchive`. -/
def ZipCDEntry.all_from_eocd (d : List Nat) (eocd : ZipEOCD) :
    Except ZipReadError (List ZipCDEntry) :=
  match ZipCDEntry.cdLoopAux d eocd.cd_starting_position eocd.n_cd_entries with
  | .error err => .error err
  | .ok (l, q) =>
    if q = eocd.starting_position_with_signature then .ok l
    else .error .unsupportedZipArchive

/-- The bytes `ZipCDEntry::write` writes: magic, the 42 fixed bytes, then the
raw name, extra-field and comment buffers. -/
def ZipCDEntry.writeBytes (c : ZipCDEntry) : List Nat :=
  CD_MAGIC ++ w16 c.version_made_by ++ w16 c.version_required_to_extract
    ++ w16 c.general_purpose_flags ++ w16 c.compression_method
    ++ w16 c.last_mod_time ++ w16 c.last_mod_date
    ++ w32 c.crc32 ++ w32 c.compressed_size ++ w32 c.uncompressed_size
    ++ w16 c.file_name_length ++ w16 c.extra_field_length ++ w16 c.file_comment_length
    ++ w16 c.disk_number_start ++ w16 c.internal_file_attributes
    ++ w32 c.external_file_attributes ++ w32 c.local_header_position
    ++ c.file_name_raw ++ c.extra_field ++ c.file_comment

/-- The byte count `ZipCDEntry::write` returns:
`46 + file_name_length + extra_field_length + file_comment_length`. -/
def ZipCDEntry.writeCount (c : ZipCDEntry) : Nat :=
  46 + c.file_name_length + c.extra_field_length + c.file_comment_length

/-! ## Local file header (`zip_local_file_header.rs`) -/

/-- `LOCAL_FILE_MAGIC = [0x50, 0x4b, 0x3, 0x4]`. -/
def LOCAL_FILE_MAGIC : List Nat := [0x50, 0x4b, 0x3, 0x4]

/-- `ZipDataDescriptor` of `zip_local_file_header.rs`. -/
structure ZipDataDescriptor where
  crc32 : Nat
  compressed_size : Nat
  uncompressed_size : Nat
deriving Repr, DecidableEq

/-- `ZipLocalFileHeader` of `zip_local_file_header.rs`. -/
structure ZipLocalFileHeader where
  version_required_to_extract : Nat
  general_purpose_flags : Nat
  compression_method : Nat
  last_mod_time : Nat
  last_mod_date : Nat
  crc32 : Nat
  compressed_size : Nat
  uncompressed_size : Nat
  file_name_length : Nat
  extra_field_length : Nat
  file_name_raw : List Nat
  extra_field : List Nat
  compressed_data : List Nat
  data_descriptor : Option ZipDataDescriptor
  starting_position_with_signature : Nat
  starting_position_without_signature : Nat
deriving Repr, DecidableEq

/-- `ZipLocalFileHeader::set_utf8_encoded_flag`. -/
def ZipLocalFileHeader.set_utf8_encoded_flag (l : ZipLocalFileHeader) : ZipLocalFileHeader :=
  { l with general_purpose_flags := l.general_purpose_flags ||| UTF8_FLAG_BIT }

/-- `ZipLocalFileHeader::set_file_name_from_slice`: `file_name_length = name.len() as u16`
(truncating cast) and the raw buffer is replaced. -/
def ZipLocalFileHeader.set_file_name_from_slice (l : ZipLocalFileHeader) (name : List Nat) :
    ZipLocalFileHeader :=
  { l with file_name_length := name.length % 65536, file_name_raw := name }

/-- `ZipLocalFileHeader::has_data_descriptor_by_flag`: bit #3. -/
def ZipLocalFileHeader.has_data_descriptor_by_flag (l : ZipLocalFileHeader) : Bool :=
  DATA_DESCRIPTOR_EXISTS_FLAG_BIT &&& l.general_purpose_flags != 0

/-- The 26 fixed bytes of a local file header as `read_without_signature`
reads them (buffers still empty), with the magic at `p`. -/
def ZipLocalFileHeader.parseFixed (d : List Nat) (p : Nat) : ZipLocalFileHeader :=
  { version_required_to_extract := u16At d (p + 4)
    general_purpose_flags := u16At d (p + 6)
    compression_method := u16At d (p + 8)
    last_mod_time := u16At d (p + 10)
    last_mod_date := u16At d (p + 12)
    crc32 := u32At d (p + 14)
    compressed_size := u32At d (p + 18)
    uncompressed_size := u32At d (p + 22)
    file_name_length := u16At d (p + 26)
    extra_field_length := u16At d (p + 28)
    file_name_raw := []
    extra_field := []
    compressed_data := []
    data_descriptor := none
    starting_position_with_signature := p
    starting_position_without_signature := p + 4 }

/-- The position just past a local file header's compressed data. -/
def ZipLocalFileHeader.dataEnd (d : List Nat) (p : Nat) : Nat :=
  p + 30 + (ZipLocalFileHeader.parseFixed d p).file_name_length
    + (ZipLocalFileHeader.parseFixed d p).extra_field_length
    + (ZipLocalFileHeader.parseFixed d p).compressed_size

/-- The header with its name / extra-field / compressed-data buffers filled
from the declared lengths. -/
def ZipLocalFileHeader.withBuffers (d : List Nat) (p : Nat) : ZipLocalFileHeader :=
  { ZipLocalFileHeader.parseFixed d p with
    file_name_raw := extractBytes d (p + 30)
      (p + 30 + (ZipLocalFileHeader.parseFixed d p).file_name_length)
    extra_field := extractBytes d (p + 30 + (ZipLocalFileHeader.parseFixed d p).file_name_length)
      (p + 30 + (ZipLocalFileHeader.parseFixed d p).file_name_length
        + (ZipLocalFileHeader.parseFixed d p).extra_field_length)
    compressed_data := extractBytes d
      (p + 30 + (ZipLocalFileHeader.parseFixed d p).file_name_length
        + (ZipLocalFileHeader.parseFixed d p).extra_field_length)
      (ZipLocalFileHeader.dataEnd d p) }

/-- `ZipLocalFileHeader::from_central_directory` (seek to
`cd.local_header_position`, check the magic) composed with
`read_without_signature` (26 fixed bytes, then name / extra-field /
compressed-data buffers each checked against its declared length, then the
12-byte data descriptor when bit #3 of the header's own flags is set).
Returns the header and the position past everything read. -/
def ZipLocalFileHeader.from_central_directory (d : List Nat) (cd : ZipCDEntry) :
    Except ZipReadError (ZipLocalFileHeader × Nat) :=
  let p := cd.local_header_position
  if p + 4 ≤ d.length then
    if extractBytes d p (p + 4) = LOCAL_FILE_MAGIC then
      if p + 30 ≤ d.length then
        if p + 30 + (ZipLocalFileHeader.parseFixed d p).file_name_length ≤ d.length then
          if p + 30 + (ZipLocalFileHeader.parseFixed d p).file_name_length
              + (ZipLocalFileHeader.parseFixed d p).extra_field_length ≤ d.length then
            if ZipLocalFileHeader.dataEnd d p ≤ d.length then
              if (ZipLocalFileHeader.withBuffers d p).has_data_descriptor_by_flag then
                if ZipLocalFileHeader.dataEnd d p + 12 ≤ d.length then
                  let ddv : ZipDataDescriptor :=
                    ZipDataDescriptor.mk (u32At d (ZipLocalFileHeader.dataEnd d p))
                      (u32At d (ZipLocalFileHeader.dataEnd d p + 4))
                      (u32At d (ZipLocalFileHeader.dataEnd d p + 8))
                  .ok ({ ZipLocalFileHeader.withBuffers d p with data_descriptor := some ddv },
                    ZipLocalFileHeader.dataEnd d p + 12)
                else .error .ioError
              else .ok (ZipLocalFileHeader.withBuffers d p, ZipLocalFileHeader.dataEnd d p)
            else .error .invalidZipArchive
          else .error .invalidZipArchive
        else .error .invalidZipArchive
      else .error .ioError
    else .error .invalidZipArchive
  else .error .ioError

/-- The bytes `ZipDataDescriptor::write` writes. -/
def ZipDataDescriptor.writeBytes (dd : ZipDataDescriptor) : List Nat :=
  w32 dd.crc32 ++ w32 dd.compressed_size ++ w32 dd.uncompressed_size

/-- The bytes `ZipLocalFileHeader::write` writes: magic, 26 fixed bytes, the
name / extra-field / compressed-data buffers, then the data descriptor when
present. -/
def ZipLocalFileHeader.writeBytes (l : ZipLocalFileHeader) : List Nat :=
  LOCAL_FILE_MAGIC ++ w16 l.version_required_to_extract ++ w16 l.general_purpose_flags
    ++ w16 l.compression_method ++ w16 l.last_mod_time ++ w16 l.last_mod_date
    ++ w32 l.crc32 ++ w32 l.compressed_size ++ w32 l.uncompressed_size
    ++ w16 l.file_name_length ++ w16 l.extra_field_length
    ++ l.file_name_raw ++ l.extra_field ++ l.compressed_data
    ++ (match l.data_descriptor with
        | some dd => dd.writeBytes
        | none => [])

/-- The byte count `ZipLocalFileHeader::write` returns:
`30 + file_name_length + extra_field_length + compressed_size`, plus 12 when
a data descriptor is written. -/
def ZipLocalFileHeader.writeCount (l : ZipLocalFileHeader) : Nat :=
  30 + l.file_name_length + l.extra_field_length + l.compressed_size
    + (match l.data_descriptor with
       | some _ => 12
       | none => 0)

/-- The bytes `ZipEOCD::write` writes: magic, fixed fields, comment buffer. -/
def ZipEOCD.writeBytes (e : ZipEOCD) : List Nat :=
  EOCD_MAGIC ++ w16 e.eocd_disk_index ++ w16 e.cd_start_disk_index
    ++ w16 e.n_cd_entries_in_disk ++ w16 e.n_cd_entries
    ++ w32 e.cd_size ++ w32 e.cd_starting_position ++ w16 e.comment_length
    ++ e.comment

/-! ## Decoder framework (`filename_decoder.rs`)

The decoders translate bytes to Rust `String`s; here a string is represented
by the byte list of its UTF-8 encoding.  UTF-8 validation and lossy decoding
(`std::str::from_utf8` / `String::from_utf8_lossy`) are modelled from the
spec ("validates strict UTF-8", lossy mode "substituting U+FFFD"), following
the WHATWG / Rust standard library algorithm (replacement of each maximal
invalid subpart by U+FFFD = `EF BF BD`). -/

/-- A UTF-8 continuation byte: `0x80..=0xBF`. -/
def isCont (c : Nat) : Bool := decide (0x80 ≤ c ∧ c < 0xC0)

/-- Allowed second byte after a three-byte lead `b` (`0xE0` and `0xED` have
restricted ranges, excluding overlong forms and surrogates). -/
def secondOk3 (b c : Nat) : Bool :=
  if b = 0xE0 then decide (0xA0 ≤ c ∧ c < 0xC0)
  else if b = 0xED then decide (0x80 ≤ c ∧ c < 0xA0)
  else isCont c

/-- Allowed second byte after a four-byte lead `b` (`0xF0` and `0xF4` have
restricted ranges, excluding overlong forms and codepoints past U+10FFFF). -/
def secondOk4 (b c : Nat) : Bool :=
  if b = 0xF0 then decide (0x90 ≤ c ∧ c < 0xC0)
  else if b = 0xF4 then decide (0x80 ≤ c ∧ c < 0x90)
  else isCont c

/-- Modelled from the spec: strict UTF-8 validation, as
`std::str::from_utf8(input).is_ok()` decides it. -/
def validUtf8 : List Nat → Bool
  | [] => true
  | [b] => decide (b < 0x80)
  | b :: c :: rest =>
    if b < 0x80 then validUtf8 (c :: rest)
    else if 0xC2 ≤ b ∧ b < 0xE0 then isCont c && validUtf8 rest
    else if 0xE0 ≤ b ∧ b < 0xF0 then
      match rest with
      | [] => false
      | c2 :: rest2 => secondOk3 b c && isCont c2 && validUtf8 rest2
    else if 0xF0 ≤ b ∧ b < 0xF5 then
      match rest with
      | c2 :: c3 :: rest3 => secondOk4 b c && isCont c2 && isCont c3 && validUtf8 rest3
      | _ => false
    else false

/-- UTF-8 bytes of U+FFFD, the replacement character. -/
def replChar : List Nat := [0xEF, 0xBF, 0xBD]

/-- Modelled from the spec: `String::from_utf8_lossy(input)` as UTF-8 bytes —
valid sequences are copied, each maximal invalid subpart becomes U+FFFD. -/
def lossyUtf8 : List Nat → List Nat
  | [] => []
  | [b] => if b < 0x80 then [b] else replChar
  | b :: c :: rest =>
    if b < 0x80 then b :: lossyUtf8 (c :: rest)
    else if 0xC2 ≤ b ∧ b < 0xE0 then
      if isCont c then b :: c :: lossyUtf8 rest
      else replChar ++ lossyUtf8 (c :: rest)
    else if 0xE0 ≤ b ∧ b < 0xF0 then
      if secondOk3 b c then
        match rest with
        | [] => replChar
        | c2 :: rest2 =>
          if isCont c2 then b :: c :: c2 :: lossyUtf8 rest2
          else replChar ++ lossyUtf8 (c2 :: rest2)
      else replChar ++ lossyUtf8 (c :: rest)
    else if 0xF0 ≤ b ∧ b < 0xF5 then
      if secondOk4 b c then
        match rest with
        | [] => replChar
        | [c2] => if isCont c2 then replChar else replChar ++ lossyUtf8 [c2]
        | c2 :: c3 :: rest3 =>
          if isCont c2 then
            if isCont c3 then b :: c :: c2 :: c3 :: lossyUtf8 rest3
            else replChar ++ lossyUtf8 (c3 :: rest3)
          else replChar ++ lossyUtf8 (c2 :: c3 :: rest3)
      else replChar ++ lossyUtf8 (c :: rest)
    else replChar ++ lossyUtf8 (c :: rest)

/-- A byte is ASCII: `u8::is_ascii`, i.e. `<= 0x7F`. -/
def isAsciiByte (b : Nat) : Bool := decide (b ≤ 0x7F)

/-- `ASCIIDecoder::can_decode`: every byte is ASCII (`to_string_lossless`
succeeds under exactly the same condition). -/
def asciiCanDecode (s : List Nat) : Bool := s.all isAsciiByte

/-- Modelled from the spec: Shift-JIS validity as `encoding_rs::SHIFT_JIS`
(the WHATWG Shift_JIS decoder) reports it for
`LegacyEncodingDecoder::can_decode` — no invalid sequence met.  Single bytes
`0x00..=0x80` and `0xA1..=0xDF` (half-width katakana) are valid; a lead byte
`0x81..=0x9F` or `0xE0..=0xFC` must be followed by a trail byte `0x40..=0x7E`
or `0x80..=0xFC`. -/
def sjisValid : List Nat → Bool
  | [] => true
  | b :: rest =>
    if b ≤ 0x80 ∨ (0xA1 ≤ b ∧ b ≤ 0xDF) then sjisValid rest
    else if (0x81 ≤ b ∧ b ≤ 0x9F) ∨ (0xE0 ≤ b ∧ b ≤ 0xFC) then
      match rest with
      | [] => false
      | c :: rest2 =>
        if (0x40 ≤ c ∧ c ≤ 0x7E) ∨ (0x80 ≤ c ∧ c ≤ 0xFC) then sjisValid rest2
        else false
    else false

/-- The `IDecoder` trait, reduced to the capability `decide_decoder` consumes:
`can_decode` (equivalently `to_string_lossless(..).is_some()`, which the older
`decide_decoeder` tests). -/
structure IDecoder where
  can_decode : List Nat → Bool

/-- The `ASCIIDecoder` unit struct as an `IDecoder`. -/
def ASCIIDecoder : IDecoder := { can_decode := asciiCanDecode }

/-- The `UTF8NFCDecoder` unit struct as an `IDecoder`:
`can_decode = std::str::from_utf8(input).is_ok()`. -/
def UTF8NFCDecoder : IDecoder := { can_decode := validUtf8 }

/-- `LegacyEncodingDecoder { decoder: encoding_rs::SHIFT_JIS }` as an
`IDecoder`. -/
def SJISDecoder : IDecoder := { can_decode := sjisValid }

/-- The indexed `for i in 0..decoders.len()` loop of `decide_decoder`. -/
def decide_decoder_aux : List IDecoder → List (List Nat) → Nat → Option Nat
  | [], _, _ => none
  | dec :: rest, strings, i =>
    if strings.all (fun subject => dec.can_decode subject) then some i
    else decide_decoder_aux rest strings (i + 1)

/-- `decide_decoder` of `crates/zifu_core/src/filename_decoder.rs` (the older
`decide_decoeder` of `src/filename_decoder.rs` is the same loop testing
`to_string_lossless(subject) != None`): the first decoder index whose decoder
decodes every subject, else `None`. -/
def decide_decoder (decoders : List IDecoder) (strings : List (List Nat)) : Option Nat :=
  decide_decoder_aux decoders strings 0

/-! ## Archive model (`crates/zifu_core/src/lib.rs`, and `src/lib.rs` for the
older convert) -/

/-- `FileNamesDiagnosis` of `crates/zifu_core/src/lib.rs`. -/
structure FileNamesDiagnosis where
  has_implicit_non_ascii_names : Bool
  has_non_nfc_explicit_utf8_names : Bool
deriving Repr, DecidableEq

/-- The body of `InputZIPArchive::new` after `ZipEOCD::from_reader` has
produced `r`: parse the central directory and pair it with the EOCD. -/
def InputZIPArchive.newAux (d : List Nat) (r : Except ZipReadError ZipEOCD) :
    Except ZipReadError (ZipEOCD × List ZipCDEntry) :=
  match r with
  | .error err => .error err
  | .ok eocd =>
    match ZipCDEntry.all_from_eocd d eocd with
    | .error err => .error err
    | .ok cds => .ok (eocd, cds)

/-- `InputZIPArchive::new`: locate the EOCD, then parse the central
directory.  The file handler is the byte list `d`; the archive state is the
pair (EOCD, central-directory entries). -/
def InputZIPArchive.new (d : List Nat) : Except ZipReadError (ZipEOCD × List ZipCDEntry) :=
  InputZIPArchive.newAux d (ZipEOCD.from_reader d)

/-- `InputZIPArchive::diagnose_file_name_encoding`, over the entry list.
`compose` stands for `hfs_nfd::compose_from_hfs_nfd` (external crate), taken
as a parameter on UTF-8 byte strings. -/
def InputZIPArchive.diagnose_file_name_encoding (compose : List Nat → List Nat)
    (cds : List ZipCDEntry) : FileNamesDiagnosis :=
  { has_implicit_non_ascii_names :=
      (cds.filter (fun cd => !cd.is_encoded_in_utf8)).any
        (fun cd => !asciiCanDecode cd.file_name_raw)
    has_non_nfc_explicit_utf8_names :=
      (cds.filter (fun cd => cd.is_encoded_in_utf8)).any
        (fun cd => lossyUtf8 cd.file_name_raw != compose (lossyUtf8 cd.file_name_raw)) }

/-- `InputZIPArchive::convert_central_directory_file_names` of
`crates/zifu_core/src/lib.rs`: an entry already flagged UTF-8 is
re-normalized (renamed to `compose(from_utf8_lossy(name))` when that
differs); an unflagged entry has its name and comment replaced by
`legacy_decoder.to_string_lossy(..)` (the `lossy` parameter, a byte function
standing for the `IDecoder` trait method) and the UTF-8 flag set.
This is the per-entry closure of its `for_each`. -/
def InputZIPArchive.convertEntry (compose lossy : List Nat → List Nat) (cd : ZipCDEntry) :
    ZipCDEntry :=
  if cd.is_encoded_in_utf8 then
    if lossyUtf8 cd.file_name_raw ≠ compose (lossyUtf8 cd.file_name_raw) then
      cd.set_file_name_from_slice (compose (lossyUtf8 cd.file_name_raw))
    else cd
  else
    ((cd.set_file_name_from_slice (lossy cd.file_name_raw)).set_file_coment_from_slice
      (lossy cd.file_comment)).set_utf8_encoded_flag

/-- `convert_central_directory_file_names` over the whole entry list. -/
def InputZIPArchive.convert_central_directory_file_names
    (compose lossy : List Nat → List Nat) (cds : List ZipCDEntry) : List ZipCDEntry :=
  cds.map (InputZIPArchive.convertEntry compose lossy)

/-- `InputZIPArchive::convert_central_directory_file_names` of the older
`src/lib.rs`: an entry already flagged UTF-8 is returned untouched (early
`return`); an unflagged entry is transcoded and flagged as above.
This is the per-entry closure of its `for_each`. -/
def V1.convertEntry (lossy : List Nat → List Nat) (cd : ZipCDEntry) : ZipCDEntry :=
  if cd.is_encoded_in_utf8 then cd
  else
    ((cd.set_file_name_from_slice (lossy cd.file_name_raw)).set_file_coment_from_slice
      (lossy cd.file_comment)).set_utf8_encoded_flag

/-- The older `convert_central_directory_file_names` over the entry list. -/
def V1.convert_central_directory_file_names (lossy : List Nat → List Nat)
    (cds : List ZipCDEntry) : List ZipCDEntry :=
  cds.map (V1.convertEntry lossy)

/-- The per-entry loop of
`InputZIPArchive::output_archive_with_central_directory_file_names`
(`crates/zifu_core/src/lib.rs`): for each central-directory entry, read its
local header from the original source, replace the header's name when the
name lengths differ, set the header's UTF-8 flag when the entry has it,
record the running output position (`pos as u32`) as the entry's new local
header offset, write the header and advance `pos` by the count
`ZipLocalFileHeader::write` returns.  Returns the emitted bytes, the final
`pos` and the updated entries. -/
def outputLoop (d : List Nat) :
    List ZipCDEntry → Nat → Except ZipReadError (List Nat × Nat × List ZipCDEntry)
  | [], pos => .ok ([], pos, [])
  | cd :: rest, pos =>
    match ZipLocalFileHeader.from_central_directory d cd with
    | .error err => .error err
    | .ok (lh, _) =>
      let lh2 := if lh.file_name_length ≠ cd.file_name_length then
          lh.set_file_name_from_slice cd.file_name_raw
        else lh
      let lh3 := if cd.is_encoded_in_utf8 then lh2.set_utf8_encoded_flag else lh2
      let cd2 := { cd with local_header_position := pos % 4294967296 }
      match outputLoop d rest (pos + lh3.writeCount) with
      | .error err => .error err
      | .ok (bs, pend, cds2) => .ok (lh3.writeBytes ++ bs, pend, cd2 :: cds2)

/-- Sum of the counts `ZipCDEntry::write` returns over a list (the loop's
`cd_new_size`). -/
def cdWriteCountSum : List ZipCDEntry → Nat
  | [] => 0
  | cd :: rest => cd.writeCount + cdWriteCountSum rest

/-- Concatenated bytes of `ZipCDEntry::write` over a list. -/
def cdWriteBytesAll : List ZipCDEntry → List Nat
  | [] => []
  | cd :: rest => cd.writeBytes ++ cdWriteBytesAll rest

/-- `InputZIPArchive::output_archive_with_central_directory_file_names`
(`crates/zifu_core/src/lib.rs`): local headers (with contents), then the
central directory, then the EOCD with `cd_starting_position` set to the
position after the local headers and `cd_size` to the central directory's
byte count (both `as u32`). -/
def InputZIPArchive.output_archive_with_central_directory_file_names
    (d : List Nat) (eocd : ZipEOCD) (cds : List ZipCDEntry) :
    Except ZipReadError (List Nat) :=
  match outputLoop d cds 0 with
  | .error err => .error err
  | .ok (lfhBytes, pos, cds2) =>
    let eocd2 := { eocd with
      cd_starting_position := pos % 4294967296
      cd_size := cdWriteCountSum cds2 % 4294967296 }
    .ok (lfhBytes ++ cdWriteBytesAll cds2 ++ eocd2.writeBytes)

/-- The continuation of load-then-serialize once `InputZIPArchive::new` has
produced `r`: propagate its error, or serialize its archive. -/
def loadThenOutputAux (d : List Nat) :
    Except ZipReadError (ZipEOCD × List ZipCDEntry) → Except ZipReadError (List Nat)
  | .error err => .error err
  | .ok (eocd, cds) =>
    InputZIPArchive.output_archive_with_central_directory_file_names d eocd cds

/-- `serialize(load(X))` with no `convert` in between: `InputZIPArchive::new`
followed directly by `output_archive_with_central_directory_file_names`. -/
def loadThenOutput (d : List Nat) : Except ZipReadError (List Nat) :=
  loadThenOutputAux d (InputZIPArchive.new d)

/-! ## External decoder functions modelled from the spec, and concrete data -/

/-- Modelled from the spec: `hfs_nfd::compose_from_hfs_nfd` (external crate)
"re-composes any HFS+-style decomposed (NFD-like) sequences into NFC",
restricted to the decomposition this development exercises:
U+0065 U+0300 (`65 CC 80`, "e" + combining grave) composes to U+00E8
(`C3 A8`, "è"); every other byte is copied. -/
def compose_from_hfs_nfd : List Nat → List Nat
  | 0x65 :: 0xCC :: 0x80 :: rest => 0xC3 :: 0xA8 :: compose_from_hfs_nfd rest
  | b :: rest => b :: compose_from_hfs_nfd rest
  | [] => []

/-- Modelled from the spec: `to_string_lossy` of the legacy multi-byte
decoder `encoding_rs` windows-1258 (reachable as
`IDecoder::from_encoding_name("windows-1258")`), restricted to the bytes this
development exercises: ASCII bytes map to themselves and `0xCC` maps to
U+0300 (COMBINING GRAVE ACCENT, UTF-8 `CC 80`) — windows-1258 stores
Vietnamese diacritics as combining characters; anything else becomes
U+FFFD. -/
def windows1258_to_string_lossy : List Nat → List Nat
  | [] => []
  | b :: rest =>
    (if b ≤ 0x7F then [b] else if b = 0xCC then [0xCC, 0x80] else replChar)
      ++ windows1258_to_string_lossy rest

/-- The constantly-empty byte function: a trivially lawful instantiation of a
decoder's `to_string_lossy` and of `compose_from_hfs_nfd` for witnesses. -/
def constNil : List Nat → List Nat := fun _ => []

/-- "テスト.txt" in Shift-JIS, the spec's scenario bytes
`83 65 83 58 83 67 2E 74 78 74`. -/
def c4SjisName : List Nat := [0x83, 0x65, 0x83, 0x58, 0x83, 0x67, 0x2E, 0x74, 0x78, 0x74]

/-- "test.txt" in ASCII. -/
def c4AsciiName : List Nat := [0x74, 0x65, 0x73, 0x74, 0x2E, 0x74, 0x78, 0x74]

/-- A central-directory entry without the UTF-8 flag whose name is the
windows-1258 encoding of "è" ("e" + combining grave, bytes `65 CC`). -/
def c5entry : ZipCDEntry :=
  { ZipCDEntry.empty with file_name_length := 2, file_name_raw := [0x65, 0xCC] }

/-- A 22-byte archive that is just an EOCD record with zero entries,
`cd_starting_position = 0` and a stale `cd_size = 5`.  It loads successfully
(the central-directory loop runs zero times and ends exactly at the EOCD),
and no entry needs a local-header name-length change (there are none). -/
def c2dat : List Nat :=
  [0x50, 0x4b, 0x05, 0x06, 0, 0, 0, 0, 0, 0, 0, 0, 5, 0, 0, 0, 0, 0, 0, 0, 0, 0]

/-- What serializing the loaded `c2dat` emits: the same EOCD with `cd_size`
recomputed to 0 — one byte differs from `c2dat`. -/
def c2out : List Nat :=
  [0x50, 0x4b, 0x05, 0x06, 0, 0, 0, 0, 0, 0, 0, 0, 0, 0, 0, 0, 0, 0, 0, 0, 0, 0]

/-- `c2dat` with a consistent `cd_size = 0`: a fixed point of load-then-serialize. -/
def c2clean : List Nat :=
  [0x50, 0x4b, 0x05, 0x06, 0, 0, 0, 0, 0, 0, 0, 0, 0, 0, 0, 0, 0, 0, 0, 0, 0, 0]

/-- The EOCD record `InputZIPArchive.new` parses out of `c2clean`. -/
def c2cleanEocd : ZipEOCD :=
  { eocd_disk_index := 0
    cd_start_disk_index := 0
    n_cd_entries_in_disk := 0
    n_cd_entries := 0
    cd_size := 0
    cd_starting_position := 0
    comment_length := 0
    comment := []
    starting_position_with_signature := 0
    starting_position_without_signature := 4 }

/-- Four bytes that are exactly the EOCD magic: the scan matches them, then
hits end-of-file inside the fixed fields, which surfaces as an I/O error. -/
def c3dat : List Nat := [0x50, 0x4b, 0x05, 0x06]

/-- An EOCD record declaring zero central-directory entries starting at
position 0, with its own signature at position 1 — the zero-entry parse ends
at cursor 0, one byte short of the EOCD. -/
def c8eocd : ZipEOCD := { ZipEOCD.empty with starting_position_with_signature := 1 }

/-- 46 bytes: the central-directory magic and 42 fixed bytes whose general
purpose flags have bit 0 (encrypted data) set; name, extra field and comment
are declared empty. -/
def c6dat : List Nat :=
  [0x50, 0x4b, 0x01, 0x02] ++ [0, 0, 0, 0, 1, 0] ++ List.replicate 36 0

/-- 44 bytes holding two EOCD candidates: a rejected one at position 0 (its
declared comment length 0 disagrees with the 22 bytes that follow) and an
accepted one at position 22 ending exactly at end-of-file.  The rejected
candidate's probe read leaves one stray byte (`0x50`) in the comment
buffer. -/
def c9dat : List Nat :=
  [0x50, 0x4b, 0x05, 0x06] ++ List.replicate 18 0
    ++ [0x50, 0x4b, 0x05, 0x06] ++ List.replicate 18 0

/-- The record `ZipEOCD::from_reader` returns on `c9dat`: all fields from the
accepted candidate at position 22, but the comment holds the stray byte
`0x50` even though `comment_length = 0`. -/
def c9polluted : ZipEOCD :=
  { eocd_disk_index := 0
    cd_start_disk_index := 0
    n_cd_entries_in_disk := 0
    n_cd_entries := 0
    cd_size := 0
    cd_starting_position := 0
    comment_length := 0
    comment := [0x50]
    starting_position_with_signature := 22
    starting_position_without_signature := 26 }

/-- The stale EOCD record `InputZIPArchive.new` parses out of `c2dat`
(`cd_size` still 5). -/
def c2eocdStale : ZipEOCD :=
  { eocd_disk_index := 0
    cd_start_disk_index := 0
    n_cd_entries_in_disk := 0
    n_cd_entries := 0
    cd_size := 5
    cd_starting_position := 0
    comment_length := 0
    comment := []
    starting_position_with_signature := 0
    starting_position_without_signature := 4 }

/-- `c5entry` after one `convert` with the windows-1258 decoder: name
transcoded to UTF-8 `65 CC 80` ("e" + combining grave), UTF-8 flag set. -/
def c5e1 : ZipCDEntry :=
  { ZipCDEntry.empty with
    general_purpose_flags := 0x800
    file_name_length := 3
    file_name_raw := [0x65, 0xCC, 0x80] }

/-- `c5e1` after a second `convert`: the NFC re-normalization pass rewrites
the already-UTF-8 name to `C3 A8` ("è" composed). -/
def c5e2 : ZipCDEntry :=
  { ZipCDEntry.empty with
    general_purpose_flags := 0x800
    file_name_length := 2
    file_name_raw := [0xC3, 0xA8] }

/-- The local-header layout hypotheses under which load-then-serialize is the
identity: the local headers referenced by the central directory tile the
region from `p` up to `q` contiguously in entry order, each parses
successfully, keeps the same name length as its central-directory entry, and
already carries the UTF-8 flag whenever its entry does (the `|=` of the flag
is then a no-op). -/
def lfhChain (d : List Nat) : List ZipCDEntry → Nat → Nat → Prop
  | [], p, q => p = q
  | cd :: rest, p, q =>
    cd.local_header_position = p ∧
    ∃ lh r, ZipLocalFileHeader.from_central_directory d cd = .ok (lh, r) ∧
      lh.file_name_length = cd.file_name_length ∧
      (cd.is_encoded_in_utf8 = true →
        lh.general_purpose_flags ||| UTF8_FLAG_BIT = lh.general_purpose_flags) ∧
      lfhChain d rest r q

/-- The EOCD record the locator builds for an accepted candidate whose magic
sits at `p`: fixed fields from the 18 bytes after the magic, the comment
read to end-of-file and appended after whatever `junk` the comment buffer
already held (bytes left by earlier rejected candidates). -/
def parsedEOCDAt (d : List Nat) (p : Nat) (junk : List Nat) : ZipEOCD :=
  { eocd_disk_index := u16At d (p + 4)
    cd_start_disk_index := u16At d (p + 6)
    n_cd_entries_in_disk := u16At d (p + 8)
    n_cd_entries := u16At d (p + 10)
    cd_size := u32At d (p + 12)
    cd_starting_position := u32At d (p + 16)
    comment_length := u16At d (p + 20)
    comment := junk ++ extractBytes d (p + 22) d.length
    starting_position_with_signature := p
    starting_position_without_signature := p + 4 }

/-- What the EOCD scan starting at `lb` may return: a first verifying
candidate (with possibly polluted comment), the not-found error when every
candidate in range fails with its fixed fields readable, or an I/O error
when a candidate's fixed fields run past end-of-file. -/
def scanOutcome (d : List Nat) (lb : Nat) (res : Except ZipReadError ZipEOCD) : Prop :=
  match res with
  | .ok e2 => ∃ p junk, lb ≤ p ∧ magicAt d p ∧ verifiesAt d p ∧
      (∀ q, lb ≤ q → q < p → magicAt d q → ¬ verifiesAt d q) ∧ e2 = parsedEOCDAt d p junk
  | .error .invalidZipArchive =>
      ∀ p, lb ≤ p → magicAt d p → ¬ verifiesAt d p ∧ p + 22 ≤ d.length
  | .error .ioError => ∃ p, lb ≤ p ∧ magicAt d p ∧ d.length < p + 22 ∧
      ∀ q, lb ≤ q → q < p → magicAt d q → ¬ verifiesAt d q
  | .error .unsupportedZipArchive => False

/-! ## Byte-level helper lemmas -/

theorem byteAtD_lt {d : List Nat} (hb : bytesLt d) (p : Nat) : byteAtD d p < 256 := by
  unfold byteAtD
  rcases Nat.lt_or_ge p d.length with h | h
  · rw [List.getD_eq_getElem d 0 h]
    exact hb _ (List.getElem_mem h)
  · rw [List.getD_eq_default d 0 h]
    exact Nat.zero_lt_succ _

theorem u16At_lt {d : List Nat} (hb : bytesLt d) (p : Nat) : u16At d p < 65536 := by
  have h1 := byteAtD_lt hb p
  have h2 := byteAtD_lt hb (p + 1)
  unfold u16At
  omega

theorem u32At_lt {d : List Nat} (hb : bytesLt d) (p : Nat) : u32At d p < 4294967296 := by
  have h1 := u16At_lt hb p
  have h2 := u16At_lt hb (p + 2)
  unfold u32At
  omega

theorem extractBytes_nil (d : List Nat) (a : Nat) : extractBytes d a a = [] := by
  simp [extractBytes]

theorem extractBytes_cons {d : List Nat} {a b : Nat} (ha : a < d.length) (hab : a < b) :
    extractBytes d a b = byteAtD d a :: extractBytes d (a + 1) b := by
  unfold extractBytes byteAtD
  rw [List.drop_eq_getElem_cons ha]
  have : b - a = (b - (a + 1)) + 1 := by omega
  rw [this, List.take_succ_cons, List.getD_eq_getElem d 0 ha]

theorem extractBytes_append {d : List Nat} {a b c : Nat} (hab : a ≤ b) (hbc : b ≤ c) :
    extractBytes d a b ++ extractBytes d b c = extractBytes d a c := by
  unfold extractBytes
  have h1 : c - a = (b - a) + (c - b) := by omega
  have h2 : a + (b - a) = b := by omega
  rw [h1, List.take_add, List.drop_drop, h2]

theorem extractBytes_length {d : List Nat} {a b : Nat} :
    (extractBytes d a b).length = min (b - a) (d.length - a) := by
  simp [extractBytes]

theorem extractBytes_whole (d : List Nat) : extractBytes d 0 d.length = d := by
  simp [extractBytes]

theorem extractBytes_two {d : List Nat} {a : Nat} (h : a + 2 ≤ d.length) :
    extractBytes d a (a + 2) = [byteAtD d a, byteAtD d (a + 1)] := by
  rw [extractBytes_cons (by omega) (by omega), extractBytes_cons (by omega) (by omega),
    extractBytes_nil]

theorem w16_spec {d : List Nat} {a : Nat} (hb : bytesLt d) (h : a + 2 ≤ d.length) :
    w16 (u16At d a) = extractBytes d a (a + 2) := by
  rw [extractBytes_two h]
  have h1 := byteAtD_lt hb a
  have h2 := byteAtD_lt hb (a + 1)
  unfold w16 u16At
  simp only [List.cons.injEq, and_true]
  omega

theorem extractBytes_four {d : List Nat} {a : Nat} (h : a + 4 ≤ d.length) :
    extractBytes d a (a + 4) =
      [byteAtD d a, byteAtD d (a + 1), byteAtD d (a + 2), byteAtD d (a + 3)] := by
  rw [extractBytes_cons (by omega) (by omega), extractBytes_cons (by omega) (by omega),
    extractBytes_cons (by omega) (by omega), extractBytes_cons (by omega) (by omega),
    extractBytes_nil]

theorem w32_spec {d : List Nat} {a : Nat} (hb : bytesLt d) (h : a + 4 ≤ d.length) :
    w32 (u32At d a) = extractBytes d a (a + 4) := by
  rw [extractBytes_four h]
  have h1 := byteAtD_lt hb a
  have h2 := byteAtD_lt hb (a + 1)
  have h3 := byteAtD_lt hb (a + 2)
  have h4 := byteAtD_lt hb (a + 3)
  unfold w32 u32At u16At
  have hx : a + 2 + 1 = a + 3 := by omega
  rw [hx]
  simp only [List.cons.injEq, and_true]
  omega

/-! ## C1 — the name/comment setters and their length fields -/

/-- [C1, counterexample] `set_file_name_from_slice` with a 65536-byte vector:
the `as u16` cast wraps, so `file_name_length` (0) is NOT the byte length of
the buffer (65536). -/
theorem c1_setter_counterexample :
    (ZipCDEntry.empty.set_file_name_from_slice (List.replicate 65536 7)).file_name_length
      ≠ (List.replicate 65536 7).length := by
  simp only [ZipCDEntry.set_file_name_from_slice, List.length_replicate]
  omega

/-- [C1, amended] After `set_file_name_from_slice` / `set_file_coment_from_slice`
(central directory) and `set_file_name_from_slice` (local header), the length
field equals the buffer's byte length REDUCED MODULO 2^16 (the `as u16`
cast), and the raw buffer equals the input; the length field equals the exact
byte length whenever the input is at most 65535 bytes long — not for longer
inputs. -/
theorem c1_setters_amended :
    (∀ (c : ZipCDEntry) (name : List Nat),
        (c.set_file_name_from_slice name).file_name_length = name.length % 65536
      ∧ (c.set_file_name_from_slice name).file_name_raw = name
      ∧ (name.length ≤ 65535 →
          (c.set_file_name_from_slice name).file_name_length = name.length))
  ∧ (∀ (c : ZipCDEntry) (comment : List Nat),
        (c.set_file_coment_from_slice comment).file_comment_length = comment.length % 65536
      ∧ (c.set_file_coment_from_slice comment).file_comment = comment
      ∧ (comment.length ≤ 65535 →
          (c.set_file_coment_from_slice comment).file_comment_length = comment.length))
  ∧ (∀ (l : ZipLocalFileHeader) (name : List Nat),
        (l.set_file_name_from_slice name).file_name_length = name.length % 65536
      ∧ (l.set_file_name_from_slice name).file_name_raw = name
      ∧ (name.length ≤ 65535 →
          (l.set_file_name_from_slice name).file_name_length = name.length)) := by
  refine ⟨fun c name => ⟨rfl, rfl, fun h => ?_⟩, fun c comment => ⟨rfl, rfl, fun h => ?_⟩,
    fun l name => ⟨rfl, rfl, fun h => ?_⟩⟩
  · show name.length % 65536 = name.length
    omega
  · show comment.length % 65536 = comment.length
    omega
  · show name.length % 65536 = name.length
    omega

/-- [C1, witness] The amended statement at a 3-byte name. -/
theorem c1_setters_witness :
    (ZipCDEntry.empty.set_file_name_from_slice [1, 2, 3]).file_name_length = [1, 2, 3].length :=
  (c1_setters_amended.1 ZipCDEntry.empty [1, 2, 3]).2.2 (by decide)

/-! ## C10 — `decide_decoder` on the empty subject / decoder list -/

/-- [C10] With no subjects every decoder vacuously succeeds, so a non-empty
candidate list yields index 0; the empty candidate list yields `None`
whatever the subjects. -/
theorem c10_decide_decoder_empty_cases :
    (∀ decoders : List IDecoder, decoders ≠ [] → decide_decoder decoders [] = some 0)
  ∧ (∀ strings : List (List Nat), decide_decoder [] strings = none) := by
  constructor
  · intro ds h
    match ds with
    | [] => exact absurd rfl h
    | dec :: rest => simp [decide_decoder, decide_decoder_aux]
  · intro ss
    rfl

/-- [C10, witness] The statement at the one-decoder list. -/
theorem c10_witness : decide_decoder [ASCIIDecoder] [] = some 0 :=
  c10_decide_decoder_empty_cases.1 [ASCIIDecoder] (by simp)

/-! ## C4 — `decide_decoder` selects the first decoder that explains all subjects -/

/-- Success of a decoder on every subject (the loop's `strings.all` test). -/
def decodesAll (dec : IDecoder) (ss : List (List Nat)) : Prop :=
  ss.all dec.can_decode = true

theorem decide_decoder_aux_some_iff (ss : List (List Nat)) :
    ∀ (ds : List IDecoder) (k i : Nat), decide_decoder_aux ds ss k = some i ↔
      ∃ j, i = k + j ∧ (∃ dec : IDecoder, ds[j]? = some dec ∧ decodesAll dec ss) ∧
        ∀ (j2 : Nat) (dec2 : IDecoder), j2 < j → ds[j2]? = some dec2 → ¬ decodesAll dec2 ss := by
  intro ds
  induction ds with
  | nil =>
    intro k i
    simp [decide_decoder_aux]
  | cons dec rest ih =>
    intro k i
    by_cases h : ss.all dec.can_decode = true
    · rw [decide_decoder_aux, if_pos h]
      constructor
      · intro hk
        have hik : k = i := by
          cases hk
          rfl
        refine ⟨0, by omega, ⟨dec, by simp, h⟩, ?_⟩
        intro j2 dec2 hj2 _
        omega
      · rintro ⟨j, hij, ⟨dec2, hget, hall⟩, hprev⟩
        match j with
        | 0 =>
          subst hij
          rfl
        | j + 1 =>
          exact absurd h (hprev 0 dec (by omega) (by simp))
    · rw [decide_decoder_aux, if_neg h, ih (k + 1) i]
      constructor
      · rintro ⟨j, hij, ⟨dec2, hget, hall⟩, hprev⟩
        refine ⟨j + 1, by omega, ⟨dec2, by simpa using hget, hall⟩, ?_⟩
        intro j2 dec3 hj2 hget2
        match j2 with
        | 0 =>
          have : dec = dec3 := by
            have hx := hget2
            simp at hx
            exact hx
          subst this
          exact h
        | j2 + 1 =>
          exact hprev j2 dec3 (by omega) (by simpa using hget2)
      · rintro ⟨j, hij, ⟨dec2, hget, hall⟩, hprev⟩
        match j with
        | 0 =>
          have hx : dec = dec2 := by
            have hy := hget
            simp at hy
            exact hy
          subst hx
          exact absurd hall h
        | j + 1 =>
          refine ⟨j, by omega, ⟨dec2, by simpa using hget, hall⟩, ?_⟩
          intro j2 dec3 hj2 hget2
          exact hprev (j2 + 1) dec3 (by omega) (by simpa using hget2)

theorem decide_decoder_aux_none_iff (ss : List (List Nat)) :
    ∀ (ds : List IDecoder) (k : Nat), decide_decoder_aux ds ss k = none ↔
      ∀ (j : Nat) (dec : IDecoder), ds[j]? = some dec → ¬ decodesAll dec ss := by
  intro ds
  induction ds with
  | nil =>
    intro k
    simp [decide_decoder_aux]
  | cons dec rest ih =>
    intro k
    by_cases h : ss.all dec.can_decode = true
    · rw [decide_decoder_aux, if_pos h]
      constructor
      · intro hk
        cases hk
      · intro hall
        exact absurd h (hall 0 dec (by simp))
    · rw [decide_decoder_aux, if_neg h, ih (k + 1)]
      constructor
      · intro hall j dec2 hget
        match j with
        | 0 =>
          have hx : dec = dec2 := by
            have hy := hget
            simp at hy
            exact hy
          subst hx
          exact h
        | j + 1 =>
          exact hall j dec2 (by simpa using hget)
      · intro hall j dec2 hget
        exact hall (j + 1) dec2 (by simpa using hget)

/-- [C4] `decide_decoder` returns `some i` exactly when decoder `i` decodes
every subject and no smaller index does, and `none` exactly when no decoder
decodes them all; for `[ASCII, SJIS, UTF8]` the spec's Shift-JIS-only
subject yields the SJIS index 1 (the bytes are valid Shift-JIS, invalid
ASCII and invalid UTF-8) and an ASCII subject (also valid Shift-JIS) yields
the ASCII index 0. -/
theorem c4_decide_decoder_first_match :
    (∀ (decoders : List IDecoder) (strings : List (List Nat)) (i : Nat),
        decide_decoder decoders strings = some i ↔
          (∃ dec : IDecoder, decoders[i]? = some dec ∧ decodesAll dec strings) ∧
          ∀ (j : Nat) (dec2 : IDecoder), j < i → decoders[j]? = some dec2 →
            ¬ decodesAll dec2 strings)
  ∧ (∀ (decoders : List IDecoder) (strings : List (List Nat)),
        decide_decoder decoders strings = none ↔
          ∀ (j : Nat) (dec : IDecoder), decoders[j]? = some dec → ¬ decodesAll dec strings)
  ∧ decide_decoder [ASCIIDecoder, SJISDecoder, UTF8NFCDecoder] [c4SjisName] = some 1
  ∧ sjisValid c4SjisName = true ∧ asciiCanDecode c4SjisName = false
  ∧ validUtf8 c4SjisName = false
  ∧ decide_decoder [ASCIIDecoder, SJISDecoder, UTF8NFCDecoder] [c4AsciiName] = some 0
  ∧ asciiCanDecode c4AsciiName = true ∧ sjisValid c4AsciiName = true := by
  refine ⟨?_, ?_, by decide, by decide, by decide, by decide, by decide, by decide, by decide⟩
  · intro ds ss i
    rw [decide_decoder, decide_decoder_aux_some_iff ss ds 0 i]
    constructor
    · rintro ⟨j, hij, hdec, hprev⟩
      have hj : j = i := by omega
      subst hj
      exact ⟨hdec, hprev⟩
    · rintro ⟨hdec, hprev⟩
      exact ⟨i, by omega, hdec, hprev⟩
  · intro ds ss
    exact decide_decoder_aux_none_iff ss ds 0

/-! ## C7 — the two diagnosis booleans -/

theorem asciiCanDecode_eq_false_iff (s : List Nat) :
    asciiCanDecode s = false ↔ ∃ b ∈ s, 0x7F < b := by
  rw [← Bool.not_eq_true]
  simp [asciiCanDecode, isAsciiByte, List.all_eq_true]

/-- [C7] `diagnose_file_name_encoding` (for any normalization function
`compose` standing for `compose_from_hfs_nfd`): the "implicit non-ASCII"
boolean is true exactly when some entry without the UTF-8 flag has a name
byte above `0x7F` (ASCII decoding fails), and the "irregular normalization"
boolean is true exactly when some entry with the UTF-8 flag has a name whose
lossy UTF-8 decoding differs from its composed (NFC) form. -/
theorem c7_diagnose_flags :
    ∀ (compose : List Nat → List Nat) (cds : List ZipCDEntry),
      ((InputZIPArchive.diagnose_file_name_encoding compose cds).has_implicit_non_ascii_names
          = true
        ↔ ∃ cd ∈ cds, cd.is_encoded_in_utf8 = false ∧ ∃ b ∈ cd.file_name_raw, 0x7F < b)
    ∧ ((InputZIPArchive.diagnose_file_name_encoding compose cds).has_non_nfc_explicit_utf8_names
          = true
        ↔ ∃ cd ∈ cds, cd.is_encoded_in_utf8 = true
            ∧ lossyUtf8 cd.file_name_raw ≠ compose (lossyUtf8 cd.file_name_raw)) := by
  intro compose cds
  constructor
  · show ((cds.filter (fun cd => !cd.is_encoded_in_utf8)).any
        (fun cd => !asciiCanDecode cd.file_name_raw)) = true ↔ _
    rw [List.any_eq_true]
    constructor
    · rintro ⟨cd, hmem, hdec⟩
      rw [List.mem_filter] at hmem
      refine ⟨cd, hmem.1, ?_, ?_⟩
      · have := hmem.2
        simpa using this
      · rw [← asciiCanDecode_eq_false_iff]
        simpa using hdec
    · rintro ⟨cd, hmem, hflag, hbyte⟩
      refine ⟨cd, ?_, ?_⟩
      · rw [List.mem_filter]
        exact ⟨hmem, by simp [hflag]⟩
      · simp [asciiCanDecode_eq_false_iff]
        exact hbyte
  · show ((cds.filter (fun cd => cd.is_encoded_in_utf8)).any
        (fun cd => lossyUtf8 cd.file_name_raw != compose (lossyUtf8 cd.file_name_raw)))
          = true ↔ _
    rw [List.any_eq_true]
    constructor
    · rintro ⟨cd, hmem, hdec⟩
      rw [List.mem_filter] at hmem
      exact ⟨cd, hmem.1, hmem.2, by simpa using hdec⟩
    · rintro ⟨cd, hmem, hflag, hne⟩
      refine ⟨cd, ?_, by simpa using hne⟩
      rw [List.mem_filter]
      exact ⟨hmem, hflag⟩

/-! ## C8 — the cursor-vs-EOCD check after the central-directory loop -/

/-- [C8] When the `n_cd_entries` parse loop finishes at cursor `q`,
`all_from_eocd` succeeds (with exactly the parsed entries) precisely when `q`
equals the EOCD's own signature position; any mismatch — short of the EOCD
or past it — is `UnsupportedZipArchive`. -/
theorem c8_all_from_eocd_cursor_check :
    ∀ (d : List Nat) (eocd : ZipEOCD) (l : List ZipCDEntry) (q : Nat),
      ZipCDEntry.cdLoopAux d eocd.cd_starting_position eocd.n_cd_entries = .ok (l, q) →
      (q = eocd.starting_position_with_signature → ZipCDEntry.all_from_eocd d eocd = .ok l)
    ∧ (q ≠ eocd.starting_position_with_signature →
        ZipCDEntry.all_from_eocd d eocd = .error .unsupportedZipArchive)
    ∧ ∀ l2, ZipCDEntry.all_from_eocd d eocd = .ok l2 →
        q = eocd.starting_position_with_signature ∧ l2 = l := by
  intro d eocd l q h
  unfold ZipCDEntry.all_from_eocd
  rw [h]
  dsimp only
  by_cases hq : q = eocd.starting_position_with_signature
  · rw [if_pos hq]
    refine ⟨fun _ => rfl, fun hne => absurd hq hne, ?_⟩
    intro l2 hl2
    cases hl2
    exact ⟨hq, rfl⟩
  · rw [if_neg hq]
    refine ⟨fun heq => absurd heq hq, fun _ => rfl, ?_⟩
    intro l2 hl2
    cases hl2

/-- [C8, witness] A zero-entry archive whose parse cursor (0) is one byte
short of the EOCD signature position (1) is rejected as unsupported. -/
theorem c8_witness :
    ZipCDEntry.all_from_eocd [] c8eocd = .error .unsupportedZipArchive :=
  (c8_all_from_eocd_cursor_check [] c8eocd [] 0 rfl).2.1 (by decide)

/-! ## C6 — encrypted or split entries are rejected as unsupported -/

theorem check_unsupported_error_iff (c : ZipCDEntry) :
    c.check_unsupported = .error .unsupportedZipArchive ↔
      (c.disk_number_start ≠ 0 ∨ c.is_encrypted_data = true) := by
  unfold ZipCDEntry.check_unsupported
  by_cases h1 : c.disk_number_start ≠ 0
  · rw [if_pos h1]
    simp [h1]
  · rw [if_neg h1]
    by_cases h2 : c.is_encrypted_data
    · rw [if_pos h2]
      simp [h1, h2]
    · rw [if_neg h2]
      simp [h1, h2]

theorem check_unsupported_ok_iff (c : ZipCDEntry) :
    c.check_unsupported = .ok () ↔ (c.disk_number_start = 0 ∧ c.is_encrypted_data = false) := by
  unfold ZipCDEntry.check_unsupported
  by_cases h1 : c.disk_number_start ≠ 0
  · rw [if_pos h1]
    simp [h1]
  · rw [if_neg h1]
    by_cases h2 : c.is_encrypted_data
    · rw [if_pos h2]
      simp [h1, h2]
    · rw [if_neg h2]
      simp [h1, h2]
      omega

theorem cd_entry_unsupported_iff (d : List Nat) (p : Nat) :
    ZipCDEntry.read_and_generate_from_signature d p = .error .unsupportedZipArchive ↔
      p + 46 ≤ d.length ∧ extractBytes d p (p + 4) = CD_MAGIC ∧
        ((ZipCDEntry.parseFixed d (p + 4)).disk_number_start ≠ 0 ∨
          (ZipCDEntry.parseFixed d (p + 4)).is_encrypted_data = true) := by
  unfold ZipCDEntry.read_and_generate_from_signature
  by_cases h4 : p + 4 ≤ d.length
  · rw [if_pos h4]
    by_cases hm : extractBytes d p (p + 4) = CD_MAGIC
    · rw [if_pos hm]
      unfold ZipCDEntry.read_from_eocd_next_signature
      by_cases h46 : p + 4 + 42 ≤ d.length
      · rw [if_pos h46]
        rcases hcheck : (ZipCDEntry.parseFixed d (p + 4)).check_unsupported with err | u
        · -- the check failed; its only error is unsupported
          have herr : err = .unsupportedZipArchive := by
            unfold ZipCDEntry.check_unsupported at hcheck
            by_cases h1 : (ZipCDEntry.parseFixed d (p + 4)).disk_number_start ≠ 0
            · rw [if_pos h1] at hcheck
              cases hcheck
              rfl
            · rw [if_neg h1] at hcheck
              by_cases h2 : (ZipCDEntry.parseFixed d (p + 4)).is_encrypted_data
              · rw [if_pos h2] at hcheck
                cases hcheck
                rfl
              · rw [if_neg h2] at hcheck
                cases hcheck
          subst herr
          rw [check_unsupported_error_iff] at hcheck
          simp only [hcheck, and_true]
          constructor
          · intro _
            exact ⟨by omega, hm⟩
          · intro _
            trivial
        · rw [check_unsupported_ok_iff] at hcheck
          have hnot : ¬ ((ZipCDEntry.parseFixed d (p + 4)).disk_number_start ≠ 0 ∨
              (ZipCDEntry.parseFixed d (p + 4)).is_encrypted_data = true) := by
            rw [hcheck.2]
            simp [hcheck.1]
          simp only [hnot, and_false, iff_false]
          by_cases hn : p + 4 + 42 + (ZipCDEntry.parseFixed d (p + 4)).file_name_length
              ≤ d.length
          · rw [if_pos hn]
            by_cases he : p + 4 + 42 + (ZipCDEntry.parseFixed d (p + 4)).file_name_length
                + (ZipCDEntry.parseFixed d (p + 4)).extra_field_length ≤ d.length
            · rw [if_pos he]
              by_cases hc : p + 4 + 42 + (ZipCDEntry.parseFixed d (p + 4)).file_name_length
                  + (ZipCDEntry.parseFixed d (p + 4)).extra_field_length
                  + (ZipCDEntry.parseFixed d (p + 4)).file_comment_length ≤ d.length
              · rw [if_pos hc]
                intro hx
                cases hx
              · rw [if_neg hc]
                intro hx
                cases hx
            · rw [if_neg he]
              intro hx
              cases hx
          · rw [if_neg hn]
            intro hx
            cases hx
      · rw [if_neg h46]
        constructor
        · intro hx
          cases hx
        · intro hx
          exact absurd (by omega : p + 4 + 42 ≤ d.length) h46
    · rw [if_neg hm]
      constructor
      · intro hx
        cases hx
      · intro hx
        exact absurd hx.2.1 hm
  · rw [if_neg h4]
    constructor
    · intro hx
      cases hx
    · intro hx
      exact absurd (by omega : p + 4 ≤ d.length) h4

theorem byteAtD_congr_of_extract {d d' : List Nat} {a b : Nat}
    (hex : extractBytes d a b = extractBytes d' a b) {i : Nat} (hi : a + i < b) :
    byteAtD d (a + i) = byteAtD d' (a + i) := by
  have h1 : (extractBytes d a b)[i]? = d[a + i]? := by
    unfold extractBytes
    rw [List.getElem?_take_of_lt (by omega), List.getElem?_drop]
  have h2 : (extractBytes d' a b)[i]? = d'[a + i]? := by
    unfold extractBytes
    rw [List.getElem?_take_of_lt (by omega), List.getElem?_drop]
  have h3 : d[a + i]? = d'[a + i]? := by
    rw [← h1, ← h2, hex]
  unfold byteAtD
  rw [List.getD_eq_getElem?_getD, List.getD_eq_getElem?_getD, h3]

theorem parseFixed_congr_of_extract {d d' : List Nat} {p : Nat}
    (hex : extractBytes d p (p + 46) = extractBytes d' p (p + 46)) :
    ZipCDEntry.parseFixed d (p + 4) = ZipCDEntry.parseFixed d' (p + 4) := by
  have hbyte : ∀ q, p ≤ q → q < p + 46 → byteAtD d q = byteAtD d' q := by
    intro q h1 h2
    have hq : q = p + (q - p) := by omega
    rw [hq]
    exact byteAtD_congr_of_extract hex (by omega)
  have hu16 : ∀ q, p ≤ q → q + 2 ≤ p + 46 → u16At d q = u16At d' q := by
    intro q h1 h2
    unfold u16At
    rw [hbyte q h1 (by omega), hbyte (q + 1) (by omega) (by omega)]
  have hu32 : ∀ q, p ≤ q → q + 4 ≤ p + 46 → u32At d q = u32At d' q := by
    intro q h1 h2
    unfold u32At
    rw [hu16 q h1 (by omega), hu16 (q + 2) (by omega) (by omega)]
  unfold ZipCDEntry.parseFixed
  rw [hu16 (p + 4) (by omega) (by omega), hu16 (p + 4 + 2) (by omega) (by omega),
    hu16 (p + 4 + 4) (by omega) (by omega), hu16 (p + 4 + 6) (by omega) (by omega),
    hu16 (p + 4 + 8) (by omega) (by omega), hu16 (p + 4 + 10) (by omega) (by omega),
    hu32 (p + 4 + 12) (by omega) (by omega), hu32 (p + 4 + 16) (by omega) (by omega),
    hu32 (p + 4 + 20) (by omega) (by omega), hu16 (p + 4 + 24) (by omega) (by omega),
    hu16 (p + 4 + 26) (by omega) (by omega), hu16 (p + 4 + 28) (by omega) (by omega),
    hu16 (p + 4 + 30) (by omega) (by omega), hu16 (p + 4 + 32) (by omega) (by omega),
    hu32 (p + 4 + 34) (by omega) (by omega), hu32 (p + 4 + 38) (by omega) (by omega)]

theorem cd_read_ok_clean {d : List Nat} {p : Nat} {c : ZipCDEntry} {q : Nat}
    (h : ZipCDEntry.read_and_generate_from_signature d p = .ok (c, q)) :
    c.disk_number_start = 0 ∧ c.is_encrypted_data = false := by
  unfold ZipCDEntry.read_and_generate_from_signature at h
  split at h
  · split at h
    · unfold ZipCDEntry.read_from_eocd_next_signature at h
      split at h
      · split at h
        · cases h
        · rename_i u hcheck
          rw [check_unsupported_ok_iff] at hcheck
          split at h
          · split at h
            · split at h
              · cases h
                exact hcheck
              · cases h
            · cases h
          · cases h
      · cases h
    · cases h
  · cases h

theorem cdLoopAux_ok_clean :
    ∀ (n : Nat) (d : List Nat) (p : Nat) (l : List ZipCDEntry) (q : Nat),
      ZipCDEntry.cdLoopAux d p n = .ok (l, q) →
      ∀ c ∈ l, c.disk_number_start = 0 ∧ c.is_encrypted_data = false := by
  intro n
  induction n with
  | zero =>
    intro d p l q h
    cases h
    intro c hc
    cases hc
  | succ n ih =>
    intro d p l q h
    unfold ZipCDEntry.cdLoopAux at h
    split at h
    · cases h
    · rename_i c1 q1 hread
      split at h
      · cases h
      · rename_i l1 r1 hloop
        cases h
        intro c hc
        rcases List.mem_cons.mp hc with hc1 | hc2
        · subst hc1
          exact cd_read_ok_clean hread
        · exact ih d q1 l1 q hloop c hc2

theorem cdLoopAux_succ (d : List Nat) (p n : Nat) :
    ZipCDEntry.cdLoopAux d p (n + 1) =
      (match ZipCDEntry.read_and_generate_from_signature d p with
        | .error err => .error err
        | .ok (c, q) =>
          (match ZipCDEntry.cdLoopAux d q n with
            | .error err => .error err
            | .ok (l, r) => .ok (c :: l, r))) := rfl

theorem cdLoopAux_add :
    ∀ (i : Nat) (k : Nat) (d : List Nat) (p : Nat) (l : List ZipCDEntry) (q : Nat),
      ZipCDEntry.cdLoopAux d p i = .ok (l, q) →
      ZipCDEntry.cdLoopAux d p (i + k) =
        (match ZipCDEntry.cdLoopAux d q k with
          | .error err => .error err
          | .ok (l2, r) => .ok (l ++ l2, r)) := by
  intro i
  induction i with
  | zero =>
    intro k d p l q h
    cases h
    rw [Nat.zero_add]
    cases hk : ZipCDEntry.cdLoopAux d p k with
    | error err =>
      rfl
    | ok pr =>
      obtain ⟨l2, r⟩ := pr
      dsimp only
      rw [List.nil_append]
  | succ i ih =>
    intro k d p l q h
    rw [cdLoopAux_succ] at h
    split at h
    · cases h
    · rename_i c1 q1 hread
      split at h
      · cases h
      · rename_i l1 r1 hloop
        cases h
        have hstep : i + 1 + k = (i + k) + 1 := by omega
        rw [hstep, cdLoopAux_succ, hread]
        dsimp only
        rw [ih k d q1 l1 q hloop]
        cases hk : ZipCDEntry.cdLoopAux d q k with
        | error err =>
          rfl
        | ok pr =>
          obtain ⟨l2, r⟩ := pr
          dsimp only
          rw [List.cons_append]

theorem cd_entry_unsupported_congr :
    ∀ (d d' : List Nat) (p : Nat), p + 46 ≤ d.length → p + 46 ≤ d'.length →
      extractBytes d p (p + 46) = extractBytes d' p (p + 46) →
      (ZipCDEntry.read_and_generate_from_signature d p = .error .unsupportedZipArchive ↔
        ZipCDEntry.read_and_generate_from_signature d' p = .error .unsupportedZipArchive) := by
  intro d d' p hd hd' hex
  have hmagic : extractBytes d p (p + 4) = extractBytes d' p (p + 4) := by
    rw [extractBytes_four (by omega), extractBytes_four (by omega)]
    have e0 : byteAtD d p = byteAtD d' p := by
      have h := byteAtD_congr_of_extract hex (show p + 0 < p + 46 by omega)
      simpa using h
    have e1 := byteAtD_congr_of_extract hex (show p + 1 < p + 46 by omega)
    have e2 := byteAtD_congr_of_extract hex (show p + 2 < p + 46 by omega)
    have e3 := byteAtD_congr_of_extract hex (show p + 3 < p + 46 by omega)
    rw [e0, e1, e2, e3]
  rw [cd_entry_unsupported_iff, cd_entry_unsupported_iff, parseFixed_congr_of_extract hex,
    hmagic]
  constructor
  · rintro ⟨_, h2, h3⟩
    exact ⟨hd', h2, h3⟩
  · rintro ⟨_, h2, h3⟩
    exact ⟨hd, h2, h3⟩

theorem newAux_ok_iff (d : List Nat) (r : Except ZipReadError ZipEOCD) (eocd : ZipEOCD)
    (cds : List ZipCDEntry) :
    InputZIPArchive.newAux d r = .ok (eocd, cds) ↔
      r = .ok eocd ∧ ZipCDEntry.all_from_eocd d eocd = .ok cds := by
  cases r with
  | error err =>
    unfold InputZIPArchive.newAux
    simp
  | ok e2 =>
    unfold InputZIPArchive.newAux
    dsimp only
    cases hx : ZipCDEntry.all_from_eocd d e2 with
    | error err =>
      constructor
      · intro hy
        cases hy
      · rintro ⟨h1, h2⟩
        cases h1
        rw [hx] at h2
        cases h2
    | ok cds2 =>
      constructor
      · intro hy
        cases hy
        exact ⟨rfl, hx⟩
      · rintro ⟨h1, h2⟩
        cases h1
        rw [hx] at h2
        cases h2
        rfl

theorem newAux_of_all_error (d : List Nat) (eocd : ZipEOCD) (err : ZipReadError)
    (h : ZipCDEntry.all_from_eocd d eocd = .error err) :
    InputZIPArchive.newAux d (.ok eocd) = .error err := by
  unfold InputZIPArchive.newAux
  dsimp only
  rw [h]

theorem new_ok_entries_clean :
    ∀ (d : List Nat) (eocd : ZipEOCD) (cds : List ZipCDEntry),
      InputZIPArchive.new d = .ok (eocd, cds) →
      ∀ c ∈ cds, c.disk_number_start = 0 ∧ c.is_encrypted_data = false := by
  intro d eocd cds hnew
  unfold InputZIPArchive.new at hnew
  rw [newAux_ok_iff] at hnew
  have hcds := hnew.2
  unfold ZipCDEntry.all_from_eocd at hcds
  split at hcds
  · cases hcds
  · rename_i l1 q1 hloop
    split at hcds
    · cases hcds
      exact cdLoopAux_ok_clean _ _ _ _ _ hloop
    · cases hcds

theorem new_flagged_entry_unsupported :
    ∀ (d : List Nat) (eocd : ZipEOCD) (i : Nat) (l : List ZipCDEntry) (q : Nat),
      ZipEOCD.from_reader d = .ok eocd →
      ZipCDEntry.cdLoopAux d eocd.cd_starting_position i = .ok (l, q) →
      i < eocd.n_cd_entries →
      ZipCDEntry.read_and_generate_from_signature d q = .error .unsupportedZipArchive →
      InputZIPArchive.new d = .error .unsupportedZipArchive := by
  intro d eocd i l q heocd hloop hi hunsup
  have hrest : ZipCDEntry.cdLoopAux d q (eocd.n_cd_entries - i) =
      .error .unsupportedZipArchive := by
    have hk : eocd.n_cd_entries - i = (eocd.n_cd_entries - i - 1) + 1 := by omega
    rw [hk, cdLoopAux_succ, hunsup]
  have hcomp := cdLoopAux_add i (eocd.n_cd_entries - i) d eocd.cd_starting_position l q hloop
  rw [hrest] at hcomp
  have hsplit : i + (eocd.n_cd_entries - i) = eocd.n_cd_entries := by omega
  rw [hsplit] at hcomp
  have hall : ZipCDEntry.all_from_eocd d eocd = .error .unsupportedZipArchive := by
    unfold ZipCDEntry.all_from_eocd
    rw [hcomp]
  unfold InputZIPArchive.new
  rw [heocd]
  exact newAux_of_all_error d eocd _ hall

/-- [C6] An entry whose 46 header bytes declare a non-zero starting disk
number or the encrypted-data flag is rejected with `UnsupportedZipArchive` —
and only such entries are: the rejection is decided by the fixed fields
alone (any two sources agreeing on those 46 bytes agree on it), before the
name or comment bytes are read.  A load that succeeds holds no such entry,
and a load that parses its way to such an entry fails with
`UnsupportedZipArchive`, not `InvalidZipArchive` and not success. -/
theorem c6_unsupported_entry_rejection :
    (∀ (d : List Nat) (p : Nat),
        ZipCDEntry.read_and_generate_from_signature d p = .error .unsupportedZipArchive ↔
          p + 46 ≤ d.length ∧ extractBytes d p (p + 4) = CD_MAGIC ∧
            ((ZipCDEntry.parseFixed d (p + 4)).disk_number_start ≠ 0 ∨
              (ZipCDEntry.parseFixed d (p + 4)).is_encrypted_data = true))
  ∧ (∀ (d d' : List Nat) (p : Nat), p + 46 ≤ d.length → p + 46 ≤ d'.length →
        extractBytes d p (p + 46) = extractBytes d' p (p + 46) →
        (ZipCDEntry.read_and_generate_from_signature d p = .error .unsupportedZipArchive ↔
          ZipCDEntry.read_and_generate_from_signature d' p = .error .unsupportedZipArchive))
  ∧ (∀ (d : List Nat) (eocd : ZipEOCD) (cds : List ZipCDEntry),
        InputZIPArchive.new d = .ok (eocd, cds) →
        ∀ c ∈ cds, c.disk_number_start = 0 ∧ c.is_encrypted_data = false)
  ∧ (∀ (d : List Nat) (eocd : ZipEOCD) (i : Nat) (l : List ZipCDEntry) (q : Nat),
        ZipEOCD.from_reader d = .ok eocd →
        ZipCDEntry.cdLoopAux d eocd.cd_starting_position i = .ok (l, q) →
        i < eocd.n_cd_entries →
        ZipCDEntry.read_and_generate_from_signature d q = .error .unsupportedZipArchive →
        InputZIPArchive.new d = .error .unsupportedZipArchive) :=
  ⟨cd_entry_unsupported_iff, cd_entry_unsupported_congr, new_ok_entries_clean,
    new_flagged_entry_unsupported⟩

/-- [C6, witness] A concrete 46-byte entry with the encrypted bit set is
rejected as unsupported. -/
theorem c6_witness :
    ZipCDEntry.read_and_generate_from_signature c6dat 0 = .error .unsupportedZipArchive :=
  (c6_unsupported_entry_rejection.1 c6dat 0).mpr
    ⟨by decide, by decide, Or.inr (by decide)⟩

/-! ## C5 — convert run twice -/

theorem set_utf8_flag_is_utf8 (c : ZipCDEntry) :
    c.set_utf8_encoded_flag.is_encoded_in_utf8 = true := by
  unfold ZipCDEntry.set_utf8_encoded_flag ZipCDEntry.is_encoded_in_utf8 UTF8_FLAG_BIT
  simp only [bne_iff_ne, ne_eq, decide_eq_true_eq]
  intro h
  have hb : ((2048 : Nat) &&& (c.general_purpose_flags ||| 2048)).testBit 11 = true := by
    rw [Nat.testBit_and, Nat.testBit_or]
    have h1 : Nat.testBit 2048 11 = true := by
      rw [show (2048 : Nat) = 2 ^ 11 by norm_num]
      exact Nat.testBit_two_pow_self
    rw [h1]
    simp
  rw [h] at hb
  simp [Nat.zero_testBit] at hb

theorem V1_convertEntry_idem (lossy : List Nat → List Nat) (cd : ZipCDEntry) :
    V1.convertEntry lossy (V1.convertEntry lossy cd) = V1.convertEntry lossy cd := by
  unfold V1.convertEntry
  by_cases h : cd.is_encoded_in_utf8
  · rw [if_pos h, if_pos h]
  · rw [if_neg h, if_pos ?flag]
    case flag =>
      rw [set_utf8_flag_is_utf8]

theorem V2_convertEntry_idem (compose lossy : List Nat → List Nat)
    (h1 : ∀ b, lossyUtf8 (lossy b) = lossy b)
    (h2 : ∀ b, compose (lossy b) = lossy b)
    (h3 : ∀ s, lossyUtf8 (compose (lossyUtf8 s)) = compose (lossyUtf8 s))
    (h4 : ∀ s, compose (compose (lossyUtf8 s)) = compose (lossyUtf8 s))
    (cd : ZipCDEntry) :
    InputZIPArchive.convertEntry compose lossy (InputZIPArchive.convertEntry compose lossy cd)
      = InputZIPArchive.convertEntry compose lossy cd := by
  by_cases hu : cd.is_encoded_in_utf8
  · by_cases hne : lossyUtf8 cd.file_name_raw ≠ compose (lossyUtf8 cd.file_name_raw)
    · have hfirst : InputZIPArchive.convertEntry compose lossy cd
          = cd.set_file_name_from_slice (compose (lossyUtf8 cd.file_name_raw)) := by
        unfold InputZIPArchive.convertEntry
        rw [if_pos hu, if_pos hne]
      rw [hfirst]
      unfold InputZIPArchive.convertEntry
      have hu2 : (cd.set_file_name_from_slice
          (compose (lossyUtf8 cd.file_name_raw))).is_encoded_in_utf8 = true := hu
      rw [if_pos hu2]
      have hname : (cd.set_file_name_from_slice
          (compose (lossyUtf8 cd.file_name_raw))).file_name_raw
            = compose (lossyUtf8 cd.file_name_raw) := rfl
      rw [hname, if_neg ?stop]
      case stop =>
        rw [h3 cd.file_name_raw, h4 cd.file_name_raw]
        simp
    · have hfirst : InputZIPArchive.convertEntry compose lossy cd = cd := by
        unfold InputZIPArchive.convertEntry
        rw [if_pos hu, if_neg hne]
      rw [hfirst, hfirst]
  · have hfirst : InputZIPArchive.convertEntry compose lossy cd
        = ((cd.set_file_name_from_slice (lossy cd.file_name_raw)).set_file_coment_from_slice
          (lossy cd.file_comment)).set_utf8_encoded_flag := by
      unfold InputZIPArchive.convertEntry
      rw [if_neg hu]
    rw [hfirst]
    unfold InputZIPArchive.convertEntry
    have hu2 : (((cd.set_file_name_from_slice
        (lossy cd.file_name_raw)).set_file_coment_from_slice
          (lossy cd.file_comment)).set_utf8_encoded_flag).is_encoded_in_utf8 = true :=
      set_utf8_flag_is_utf8 _
    rw [if_pos hu2]
    have hname : (((cd.set_file_name_from_slice
        (lossy cd.file_name_raw)).set_file_coment_from_slice
          (lossy cd.file_comment)).set_utf8_encoded_flag).file_name_raw
            = lossy cd.file_name_raw := rfl
    rw [hname, if_neg ?stop2]
    case stop2 =>
      rw [h1 cd.file_name_raw, h2 cd.file_name_raw]
      simp

/-- [C5, counterexample] With the windows-1258 legacy decoder, the first
`convert` (zifu_core version) sets the UTF-8 flag and stores the decomposed
name `65 CC 80`; the second `convert` re-touches that entry — whose UTF-8
flag is set — rewriting its name to the NFC form `C3 A8`, so the second run
is NOT a no-op on an already-UTF-8 entry. -/
theorem c5_convert_counterexample :
    InputZIPArchive.convert_central_directory_file_names compose_from_hfs_nfd
        windows1258_to_string_lossy [c5entry] = [c5e1]
  ∧ c5e1.is_encoded_in_utf8 = true
  ∧ InputZIPArchive.convert_central_directory_file_names compose_from_hfs_nfd
        windows1258_to_string_lossy [c5e1] = [c5e2]
  ∧ c5e2 ≠ c5e1 := by
  refine ⟨by decide, by decide, by decide, by decide⟩

/-- [C5, amended] The older convert (`src/lib.rs`, early return on the UTF-8
flag) is unconditionally idempotent: the second run touches no entry, all of
which are flagged after the first run.  The zifu_core convert is idempotent
provided the decoder's lossy output and the normalizer are NFC-stable (the
decoder's output is a fixed point of lossy UTF-8 decoding and of the
normalizer, and the normalizer is idempotent and produces valid UTF-8 on
lossy-decoded input) — without that proviso the second run may rewrite
already-UTF-8 entries, as the counterexample shows. -/
theorem c5_convert_idempotence_amended :
    (∀ (lossy : List Nat → List Nat) (cds : List ZipCDEntry),
        V1.convert_central_directory_file_names lossy
            (V1.convert_central_directory_file_names lossy cds)
          = V1.convert_central_directory_file_names lossy cds)
  ∧ (∀ (compose lossy : List Nat → List Nat),
        (∀ b, lossyUtf8 (lossy b) = lossy b) →
        (∀ b, compose (lossy b) = lossy b) →
        (∀ s, lossyUtf8 (compose (lossyUtf8 s)) = compose (lossyUtf8 s)) →
        (∀ s, compose (compose (lossyUtf8 s)) = compose (lossyUtf8 s)) →
        ∀ cds : List ZipCDEntry,
          InputZIPArchive.convert_central_directory_file_names compose lossy
              (InputZIPArchive.convert_central_directory_file_names compose lossy cds)
            = InputZIPArchive.convert_central_directory_file_names compose lossy cds) := by
  constructor
  · intro lossy cds
    unfold V1.convert_central_directory_file_names
    rw [List.map_map]
    apply List.map_congr_left
    intro cd _
    exact V1_convertEntry_idem lossy cd
  · intro compose lossy h1 h2 h3 h4 cds
    unfold InputZIPArchive.convert_central_directory_file_names
    rw [List.map_map]
    apply List.map_congr_left
    intro cd _
    exact V2_convertEntry_idem compose lossy h1 h2 h3 h4 cd

/-- [C5, witness] The amended statement with the constantly-empty decoder
and normalizer, on the one-entry archive. -/
theorem c5_witness :
    InputZIPArchive.convert_central_directory_file_names constNil constNil
        (InputZIPArchive.convert_central_directory_file_names constNil constNil [c5entry])
      = InputZIPArchive.convert_central_directory_file_names constNil constNil [c5entry] :=
  c5_convert_idempotence_amended.2 constNil constNil (fun _ => rfl) (fun _ => rfl)
    (fun _ => rfl) (fun _ => rfl) [c5entry]

/-! ## C9 — the EOCD comment buffer after a rejected candidate -/

/-- [C9] On `c9dat` the locator rejects the candidate at position 0 after
probing one byte past its declared comment (appending that byte, `0x50`, to
the shared comment buffer), then accepts the candidate at position 22 — and
returns a record whose comment is `[0x50]` while its `comment_length` is 0:
the comment vector is longer than the declared length and holds a byte that
is not part of the accepted candidate's (empty) comment. -/
theorem c9_comment_pollution :
    ZipEOCD.from_reader c9dat = .ok c9polluted
  ∧ c9polluted.comment = [0x50]
  ∧ c9polluted.comment_length = 0
  ∧ c9polluted.comment.length ≠ c9polluted.comment_length := by
  refine ⟨by decide, by decide, by decide, by decide⟩

/-! ## C2 — load-then-serialize, counterexample -/

/-- [C2, counterexample] `c2dat` (an EOCD-only archive with a stale
`cd_size = 5`) loads successfully, no entry needs a local-header name-length
change (there is no entry), yet serializing writes `cd_size = 0`: the output
differs from the input. -/
theorem c2_roundtrip_counterexample :
    InputZIPArchive.new c2dat = .ok (c2eocdStale, [])
  ∧ loadThenOutput c2dat = .ok c2out
  ∧ c2out ≠ c2dat := by
  refine ⟨by decide, by decide, by decide⟩

/-! ## C3 — the EOCD locator, counterexample -/

/-- [C3, counterexample] On a 4-byte file that is exactly the EOCD magic, no
candidate verifies (a verifying candidate needs at least 22 bytes), yet
`from_reader` does not fail with the EOCD-not-found `InvalidZipArchive`
error: end-of-file inside the candidate's fixed fields surfaces as
`IOError`. -/
theorem c3_scan_counterexample :
    (∀ p, ¬ verifiesAt c3dat p)
  ∧ ZipEOCD.from_reader c3dat = .error .ioError
  ∧ ZipReadError.ioError ≠ ZipReadError.invalidZipArchive := by
  refine ⟨?_, by decide, by decide⟩
  intro p hp
  rcases hp with ⟨h1, _⟩
  have hlen : c3dat.length = 4 := rfl
  omega

/-! ## C3 — the EOCD locator: magic matching and candidate verification -/

theorem magicAt_bytes {d : List Nat} {p : Nat} (h : magicAt d p) :
    p + 4 ≤ d.length ∧ byteAtD d p = 0x50 ∧ byteAtD d (p + 1) = 0x4b ∧
      byteAtD d (p + 2) = 0x5 ∧ byteAtD d (p + 3) = 0x6 := by
  unfold magicAt at h
  have hlen : (extractBytes d p (p + 4)).length = EOCD_MAGIC.length := by
    rw [h]
  rw [extractBytes_length] at hlen
  have h4 : p + 4 ≤ d.length := by
    have : EOCD_MAGIC.length = 4 := rfl
    omega
  rw [extractBytes_four h4] at h
  refine ⟨h4, ?_, ?_, ?_, ?_⟩ <;> {
    have := h
    simp [EOCD_MAGIC] at this
    omega
  }

theorem bytes_magicAt {d : List Nat} {p : Nat} (h4 : p + 4 ≤ d.length)
    (h0 : byteAtD d p = 0x50) (h1 : byteAtD d (p + 1) = 0x4b)
    (h2 : byteAtD d (p + 2) = 0x5) (h3 : byteAtD d (p + 3) = 0x6) : magicAt d p := by
  unfold magicAt
  rw [extractBytes_four h4, h0, h1, h2, h3]
  rfl

theorem magic_no_overlap {d : List Nat} {p q : Nat} (hp : magicAt d p) (hq : magicAt d q)
    (hpq : p < q) : p + 4 ≤ q := by
  by_contra hc
  obtain ⟨hp4, hp0, hp1, hp2, hp3⟩ := magicAt_bytes hp
  obtain ⟨hq4, hq0, hq1, hq2, hq3⟩ := magicAt_bytes hq
  have hd : q - p = 1 ∨ q - p = 2 ∨ q - p = 3 := by omega
  rcases hd with h | h | h
  · have : q = p + 1 := by omega
    rw [this] at hq0
    rw [hp1] at hq0
    cases hq0
  · have : q = p + 2 := by omega
    rw [this] at hq0
    rw [hp2] at hq0
    cases hq0
  · have : q = p + 3 := by omega
    rw [this] at hq0
    rw [hp3] at hq0
    cases hq0

theorem frnts_error {d : List Nat} {rpos : Nat} {e : ZipEOCD} {err : ZipReadError}
    (h : ZipEOCD.from_reader_next_to_signature d rpos e = .error err) :
    err = .ioError ∧ d.length < rpos + 18 := by
  unfold ZipEOCD.from_reader_next_to_signature at h
  split at h
  · cases h
  · cases h
    rename_i hlt
    exact ⟨rfl, by omega⟩

theorem frnts_ok_true {d : List Nat} {rpos : Nat} {e e2 : ZipEOCD} {q : Nat}
    (h : ZipEOCD.from_reader_next_to_signature d rpos e = .ok (true, e2, q)) :
    rpos + 18 ≤ d.length ∧ d.length = rpos + 18 + u16At d (rpos + 16) ∧
      q = d.length ∧
      e2 = { eocd_disk_index := u16At d rpos
             cd_start_disk_index := u16At d (rpos + 2)
             n_cd_entries_in_disk := u16At d (rpos + 4)
             n_cd_entries := u16At d (rpos + 6)
             cd_size := u32At d (rpos + 8)
             cd_starting_position := u32At d (rpos + 12)
             comment_length := u16At d (rpos + 16)
             comment := e.comment ++ extractBytes d (rpos + 18) d.length
             starting_position_with_signature := rpos - 4
             starting_position_without_signature := rpos } := by
  unfold ZipEOCD.from_reader_next_to_signature at h
  split at h
  · rename_i hle
    rw [Except.ok.injEq, Prod.mk.injEq, Prod.mk.injEq] at h
    obtain ⟨hb, he2, hq⟩ := h
    rw [beq_iff_eq] at hb
    have hlen : d.length = rpos + 18 + u16At d (rpos + 16) := by omega
    have hendp : min (rpos + 18 + (u16At d (rpos + 16) + 1)) d.length = d.length := by
      omega
    refine ⟨hle, hlen, by omega, ?_⟩
    rw [← he2, hendp]
  · cases h

theorem frnts_ok_false {d : List Nat} {rpos : Nat} {e e2 : ZipEOCD} {q : Nat}
    (h : ZipEOCD.from_reader_next_to_signature d rpos e = .ok (false, e2, q)) :
    rpos + 18 ≤ d.length ∧ d.length ≠ rpos + 18 + u16At d (rpos + 16) := by
  unfold ZipEOCD.from_reader_next_to_signature at h
  split at h
  · rename_i hle
    rw [Except.ok.injEq, Prod.mk.injEq, Prod.mk.injEq] at h
    obtain ⟨hb, he2, hq⟩ := h
    rw [beq_eq_false_iff_ne] at hb
    refine ⟨hle, ?_⟩
    intro hlen
    apply hb
    omega
  · cases h

theorem get?_some_facts {d : List Nat} {rpos : Nat} {b : Nat} (hb : d.get? rpos = some b) :
    rpos < d.length ∧ byteAtD d rpos = b := by
  constructor
  · by_contra hc
    rw [List.get?_eq_none.mpr (by omega)] at hb
    cases hb
  · unfold byteAtD
    rw [List.getD_eq_getElem?_getD, ← List.get?_eq_getElem?, hb]
    rfl

theorem scanLoop_zero_eq (d : List Nat) (e : ZipEOCD) (rpos pos point : Nat) :
    ZipEOCD.scanLoop d 0 e rpos pos point = .error .invalidZipArchive := rfl

theorem scanOutcome_ok_iff (d : List Nat) (lb : Nat) (e2 : ZipEOCD) :
    scanOutcome d lb (.ok e2) ↔ ∃ p junk, lb ≤ p ∧ magicAt d p ∧ verifiesAt d p ∧
      (∀ q, lb ≤ q → q < p → magicAt d q → ¬ verifiesAt d q) ∧
      e2 = parsedEOCDAt d p junk := Iff.rfl

theorem scanOutcome_invalid_iff (d : List Nat) (lb : Nat) :
    scanOutcome d lb (.error .invalidZipArchive) ↔
      ∀ p, lb ≤ p → magicAt d p → ¬ verifiesAt d p ∧ p + 22 ≤ d.length := Iff.rfl

theorem scanOutcome_io_iff (d : List Nat) (lb : Nat) :
    scanOutcome d lb (.error .ioError) ↔
      ∃ p, lb ≤ p ∧ magicAt d p ∧ d.length < p + 22 ∧
        ∀ q, lb ≤ q → q < p → magicAt d q → ¬ verifiesAt d q := Iff.rfl

theorem scanOutcome_unsupported_iff (d : List Nat) (lb : Nat) :
    scanOutcome d lb (.error .unsupportedZipArchive) ↔ False := Iff.rfl

attribute [irreducible] scanOutcome

theorem scanLoop_spec (d : List Nat) (lb : Nat) :
    ∀ (fuel : Nat) (e : ZipEOCD) (rpos pos point : Nat),
      fuel + pos = d.length + 2 →
      rpos ≤ pos → pos ≤ rpos + 1 →
      point ≤ 3 → lb + point ≤ rpos →
      (∀ i, i < point → byteAtD d (rpos - point + i) = EOCD_MAGIC.getD i 0) →
      (∀ p, lb ≤ p → magicAt d p → p + 4 ≤ rpos →
        ¬ verifiesAt d p ∧ p + 22 ≤ d.length) →
      (∀ p, lb ≤ p → magicAt d p → p < rpos → rpos < p + 4 →
        (point = rpos - p ∨ (¬ verifiesAt d p ∧ p + 22 ≤ d.length))) →
      scanOutcome d lb (ZipEOCD.scanLoop d fuel e rpos pos point) := by
  intro fuel
  induction fuel with
  | zero =>
    intro e rpos pos point h1 h2 h3 h4 h5 h6 h7 h8
    rw [scanLoop_zero_eq, scanOutcome_invalid_iff]
    intro p hlb hm
    have h4le := (magicAt_bytes hm).1
    exact h7 p hlb hm (by omega)
  | succ fuel ih =>
    intro e rpos pos point h1 h2 h3 h4 h5 h6 h7 h8
    unfold ZipEOCD.scanLoop
    cases hb : d.get? rpos with
    | none =>
      have hge := List.get?_eq_none.mp hb
      dsimp only
      rw [scanOutcome_invalid_iff]
      intro p hlb hm
      have h4le := (magicAt_bytes hm).1
      exact h7 p hlb hm (by omega)
    | some b =>
      obtain ⟨hlt, hbyte⟩ := get?_some_facts hb
      dsimp only
      by_cases hne : EOCD_MAGIC.getD point 0 ≠ b
      · rw [if_pos hne]
        have h4' : (if b = 0x50 then 1 else 0) ≤ 3 := by split <;> omega
        have h5' : lb + (if b = 0x50 then 1 else 0) ≤ rpos + 1 := by split <;> omega
        have h6' : ∀ i, i < (if b = 0x50 then 1 else 0) →
            byteAtD d (rpos + 1 - (if b = 0x50 then 1 else 0) + i) = EOCD_MAGIC.getD i 0 := by
          by_cases hb50 : b = 0x50
          · rw [if_pos hb50]
            intro i hi
            have hi0 : i = 0 := by omega
            subst hi0
            rw [show rpos + 1 - 1 + 0 = rpos from by omega, hbyte, hb50]
            rfl
          · rw [if_neg hb50]
            intro i hi
            exact absurd hi (by omega)
        have h7' : ∀ p, lb ≤ p → magicAt d p → p + 4 ≤ rpos + 1 →
            ¬ verifiesAt d p ∧ p + 22 ≤ d.length := by
          intro p hlb hm hp4
          rcases Nat.lt_or_ge (p + 4) (rpos + 1) with hlt' | hge'
          · exact h7 p hlb hm (by omega)
          · have hp3 : p + 3 = rpos := by omega
            obtain ⟨_, _, _, _, hm3⟩ := magicAt_bytes hm
            rw [hp3] at hm3
            have hb6 : b = 6 := by omega
            rcases h8 p hlb hm (by omega) (by omega) with hpt | hfail
            · exfalso
              apply hne
              rw [hpt, show rpos - p = 3 from by omega, hb6]
              rfl
            · exact hfail
        have h8' : ∀ p, lb ≤ p → magicAt d p → p < rpos + 1 → rpos + 1 < p + 4 →
            ((if b = 0x50 then 1 else 0) = rpos + 1 - p ∨
              (¬ verifiesAt d p ∧ p + 22 ≤ d.length)) := by
          intro p hlb hm hplt hpgt
          rcases Nat.lt_or_ge p rpos with hpr | hpr
          · rcases h8 p hlb hm hpr (by omega) with hpt | hfail
            · exfalso
              apply hne
              obtain ⟨_, hm0, hm1, hm2, hm3⟩ := magicAt_bytes hm
              have hcases : rpos - p = 1 ∨ rpos - p = 2 := by omega
              rcases hcases with hc | hc
              · have hr : rpos = p + 1 := by omega
                rw [hr] at hbyte
                have hbv : b = 0x4b := by omega
                rw [hpt, hc, hbv]
                rfl
              · have hr : rpos = p + 2 := by omega
                rw [hr] at hbyte
                have hbv : b = 0x5 := by omega
                rw [hpt, hc, hbv]
                rfl
            · exact Or.inr hfail
          · have hpe : p = rpos := by omega
            obtain ⟨_, hm0, _, _, _⟩ := magicAt_bytes hm
            rw [hpe] at hm0
            have hb50 : b = 0x50 := by omega
            left
            rw [if_pos hb50]
            omega
        exact ih e (rpos + 1) (pos + 1) (if b = 0x50 then 1 else 0)
          (by omega) (by omega) (by omega) h4' h5' h6' h7' h8'
      · rw [if_neg hne]
        have hmm : EOCD_MAGIC.getD point 0 = b := not_ne_iff.mp hne
        by_cases hcand : point + 1 ≥ 4
        · rw [if_pos hcand]
          have hpt3 : point = 3 := by omega
          subst hpt3
          have hr3 : 3 ≤ rpos := by omega
          have hb6 : b = 0x6 := by
            rw [← hmm]
            rfl
          have hmagic : magicAt d (rpos - 3) := by
            apply bytes_magicAt
            · omega
            · exact h6 0 (by omega)
            · exact h6 1 (by omega)
            · exact h6 2 (by omega)
            · rw [show rpos - 3 + 3 = rpos from by omega]
              omega
          cases hfr : ZipEOCD.from_reader_next_to_signature d (rpos + 1) e with
          | error err =>
            dsimp only
            obtain ⟨herr, hlen'⟩ := frnts_error hfr
            subst herr
            rw [scanOutcome_io_iff]
            refine ⟨rpos - 3, by omega, hmagic, by omega, ?_⟩
            intro q' hq hql hqm
            exact (h7 q' hq hqm (by omega)).1
          | ok val =>
            obtain ⟨flag, e2, q⟩ := val
            cases flag with
            | true =>
              dsimp only
              rw [scanOutcome_ok_iff]
              obtain ⟨hle, hlen', hq', he2⟩ := frnts_ok_true hfr
              refine ⟨rpos - 3, e.comment, by omega, hmagic, ?_, ?_, ?_⟩
              · constructor
                · omega
                · rw [show rpos - 3 + 20 = rpos + 1 + 16 from by omega]
                  omega
              · intro q' hq hql hqm
                exact (h7 q' hq hqm (by omega)).1
              · rw [he2]
                unfold parsedEOCDAt
                rw [show rpos - 3 + 4 = rpos + 1 from by omega,
                    show rpos - 3 + 6 = rpos + 1 + 2 from by omega,
                    show rpos - 3 + 8 = rpos + 1 + 4 from by omega,
                    show rpos - 3 + 10 = rpos + 1 + 6 from by omega,
                    show rpos - 3 + 12 = rpos + 1 + 8 from by omega,
                    show rpos - 3 + 16 = rpos + 1 + 12 from by omega,
                    show rpos - 3 + 20 = rpos + 1 + 16 from by omega,
                    show rpos - 3 + 22 = rpos + 1 + 18 from by omega,
                    show rpos + 1 - 4 = rpos - 3 from by omega]
            | false =>
              dsimp only
              obtain ⟨hle, hne'⟩ := frnts_ok_false hfr
              apply ih e2 pos (pos + 1) 0 (by omega) (by omega) (by omega) (by omega)
                (by omega)
              · intro i hi
                exact absurd hi (by omega)
              · intro p' hlb' hm' hp4
                rcases Nat.lt_or_ge p' (rpos - 3) with hlt' | hge'
                · exact h7 p' hlb' hm' (by omega)
                · rcases Nat.lt_or_ge (rpos - 3) p' with hgt' | _
                  · exact absurd hp4 (by omega)
                  · have hpe : p' = rpos - 3 := by omega
                    subst hpe
                    constructor
                    · intro hv
                      obtain ⟨hv1, hv2⟩ := hv
                      apply hne'
                      rw [show rpos + 1 + 16 = rpos - 3 + 20 from by omega]
                      omega
                    · omega
              · intro p' hlb' hm' hplt' hpgt'
                right
                rcases Nat.lt_or_ge p' (rpos - 3) with hlt2 | hge2
                · exact absurd hpgt' (by omega)
                · rcases Nat.lt_or_ge (rpos - 3) p' with hgt2 | _
                  · have hno := magic_no_overlap hmagic hm' hgt2
                    exact absurd hplt' (by omega)
                  · have hpe : p' = rpos - 3 := by omega
                    subst hpe
                    constructor
                    · intro hv
                      obtain ⟨hv1, hv2⟩ := hv
                      apply hne'
                      rw [show rpos + 1 + 16 = rpos - 3 + 20 from by omega]
                      omega
                    · omega
        · rw [if_neg hcand]
          have hptle : point ≤ 2 := by omega
          have h6' : ∀ i, i < point + 1 →
              byteAtD d (rpos + 1 - (point + 1) + i) = EOCD_MAGIC.getD i 0 := by
            intro i hi
            rw [show rpos + 1 - (point + 1) + i = rpos - point + i from by omega]
            rcases Nat.lt_or_ge i point with hip | hip
            · exact h6 i hip
            · have hie : i = point := by omega
              subst hie
              rw [show rpos - i + i = rpos from by omega, hbyte]
              exact hmm.symm
          have h7' : ∀ p', lb ≤ p' → magicAt d p' → p' + 4 ≤ rpos + 1 →
              ¬ verifiesAt d p' ∧ p' + 22 ≤ d.length := by
            intro p' hlb' hm' hp4
            rcases Nat.lt_or_ge (p' + 4) (rpos + 1) with hlt' | hge'
            · exact h7 p' hlb' hm' (by omega)
            · exfalso
              have hp3 : p' + 3 = rpos := by omega
              obtain ⟨_, _, _, _, hm3⟩ := magicAt_bytes hm'
              rw [hp3] at hm3
              have hb6 : b = 6 := by omega
              have hpt : point = 0 ∨ point = 1 ∨ point = 2 := by omega
              rcases hpt with hpt | hpt | hpt <;> rw [hpt, hb6] at hmm <;>
                exact absurd hmm (by decide)
          have h8' : ∀ p', lb ≤ p' → magicAt d p' → p' < rpos + 1 → rpos + 1 < p' + 4 →
              (point + 1 = rpos + 1 - p' ∨
                (¬ verifiesAt d p' ∧ p' + 22 ≤ d.length)) := by
            intro p' hlb' hm' hplt' hpgt'
            rcases Nat.lt_or_ge p' rpos with hpr | hpr
            · rcases h8 p' hlb' hm' hpr (by omega) with hpt' | hfail
              · left; omega
              · right; exact hfail
            · have hpe : p' = rpos := by omega
              obtain ⟨_, hm0, _, _, _⟩ := magicAt_bytes hm'
              rw [hpe] at hm0
              have hb50 : b = 0x50 := by omega
              have hpt0 : point = 0 := by
                have hpt : point = 0 ∨ point = 1 ∨ point = 2 := by omega
                rcases hpt with hpt | hpt | hpt
                · exact hpt
                · exfalso; rw [hpt, hb50] at hmm; exact absurd hmm (by decide)
                · exfalso; rw [hpt, hb50] at hmm; exact absurd hmm (by decide)
              left
              omega
          exact ih e (rpos + 1) (pos + 1) (point + 1)
            (by omega) (by omega) (by omega) (by omega) (by omega) h6' h7' h8'

theorem from_reader_scanOutcome (d : List Nat) :
    scanOutcome d (scanLB d) (ZipEOCD.from_reader d) := by
  have hlb : scanLB d ≤ d.length := by
    simp only [scanLB, eocdStructSize]
    omega
  have h1 : (d.length + 2 - scanLB d) + scanLB d = d.length + 2 := by omega
  have h6 : ∀ i, i < 0 → byteAtD d (scanLB d - 0 + i) = EOCD_MAGIC.getD i 0 :=
    fun _ hi => absurd hi (by omega)
  have h7 : ∀ p, scanLB d ≤ p → magicAt d p → p + 4 ≤ scanLB d →
      ¬ verifiesAt d p ∧ p + 22 ≤ d.length :=
    fun p hp _ hp4 => absurd hp4 (by omega)
  have h8 : ∀ p, scanLB d ≤ p → magicAt d p → p < scanLB d → scanLB d < p + 4 →
      (0 = scanLB d - p ∨ (¬ verifiesAt d p ∧ p + 22 ≤ d.length)) :=
    fun p hp _ hplt _ => absurd hplt (by omega)
  exact scanLoop_spec d (scanLB d) (d.length + 2 - scanLB d) ZipEOCD.empty
    (scanLB d) (scanLB d) 0 h1 (Nat.le_refl _) (by omega) (by omega) (by omega)
    h6 h7 h8

theorem scanOutcome_elim {d : List Nat} {lb : Nat} {r : Except ZipReadError ZipEOCD}
    (h : scanOutcome d lb r) :
    (∀ e2, r = .ok e2 →
      ∃ p junk, lb ≤ p ∧ magicAt d p ∧ verifiesAt d p ∧
        (∀ q, lb ≤ q → q < p → magicAt d q → ¬ verifiesAt d q) ∧
        e2 = parsedEOCDAt d p junk) ∧
    (r = .error .ioError →
      ∃ p, lb ≤ p ∧ magicAt d p ∧ d.length < p + 22 ∧
        ∀ q, lb ≤ q → q < p → magicAt d q → ¬ verifiesAt d q) ∧
    ((∀ p, lb ≤ p → magicAt d p → ¬ verifiesAt d p ∧ p + 22 ≤ d.length) →
      r = .error .invalidZipArchive) := by
  cases r with
  | ok e2 =>
    rw [scanOutcome_ok_iff] at h
    refine ⟨?_, ?_, ?_⟩
    · intro e2' he
      rw [Except.ok.injEq] at he
      rw [← he]
      exact h
    · intro he
      cases he
    · intro hall
      exfalso
      obtain ⟨p, junk, hlb', hm, hv, _, _⟩ := h
      exact (hall p hlb' hm).1 hv
  | error err =>
    cases err with
    | ioError =>
      rw [scanOutcome_io_iff] at h
      refine ⟨?_, fun _ => h, ?_⟩
      · intro e2 he
        cases he
      · intro hall
        exfalso
        obtain ⟨p, hlb', hm, hshort, _⟩ := h
        have := (hall p hlb' hm).2
        omega
    | invalidZipArchive =>
      refine ⟨?_, ?_, fun _ => rfl⟩
      · intro e2 he
        cases he
      · intro he
        rw [Except.error.injEq] at he
        cases he
    | unsupportedZipArchive =>
      rw [scanOutcome_unsupported_iff] at h
      exact h.elim

theorem scanOutcome_forward {d : List Nat} {lb : Nat} {r : Except ZipReadError ZipEOCD}
    (h : scanOutcome d lb r) :
    ((∃ p, lb ≤ p ∧ magicAt d p ∧ verifiesAt d p) →
      ∃ p junk, lb ≤ p ∧ magicAt d p ∧ verifiesAt d p ∧
        (∀ q, lb ≤ q → q < p → magicAt d q → ¬ verifiesAt d q) ∧
        r = .ok (parsedEOCDAt d p junk)) ∧
    ((∀ p, lb ≤ p → magicAt d p → ¬ verifiesAt d p) →
      (∃ p, lb ≤ p ∧ magicAt d p ∧ d.length < p + 22) →
      r = .error .ioError) ∧
    (r = .error .invalidZipArchive →
      ∀ p, lb ≤ p → magicAt d p → ¬ verifiesAt d p ∧ p + 22 ≤ d.length) := by
  cases r with
  | ok e2 =>
    rw [scanOutcome_ok_iff] at h
    obtain ⟨p, junk, hlb, hm, hv, hmin, he⟩ := h
    refine ⟨?_, ?_, ?_⟩
    · intro _
      refine ⟨p, junk, hlb, hm, hv, hmin, ?_⟩
      rw [he]
    · intro hnone _
      exact absurd hv (hnone p hlb hm)
    · intro hcon
      cases hcon
  | error err =>
    cases err with
    | ioError =>
      rw [scanOutcome_io_iff] at h
      obtain ⟨p0, hlb0, hm0, htr0, hmin0⟩ := h
      refine ⟨?_, fun _ _ => rfl, ?_⟩
      · rintro ⟨p, hlb, hm, hv⟩
        exfalso
        obtain ⟨h22, hlen⟩ := hv
        exact hmin0 p hlb (by omega) hm ⟨h22, hlen⟩
      · intro hcon
        rw [Except.error.injEq] at hcon
        cases hcon
    | invalidZipArchive =>
      rw [scanOutcome_invalid_iff] at h
      refine ⟨?_, ?_, fun _ => h⟩
      · rintro ⟨p, hlb, hm, hv⟩
        exact absurd hv (h p hlb hm).1
      · rintro hnone ⟨p, hlb, hm, htr⟩
        exfalso
        have h2 := (h p hlb hm).2
        omega
    | unsupportedZipArchive =>
      rw [scanOutcome_unsupported_iff] at h
      exact h.elim

/-- [C3, amended] The EOCD locator `ZipEOCD::from_reader`, scanning forward
from `scanLB`, characterized in both directions.  (i) It returns a record
exactly when some candidate in the scan range verifies — after the 18
fixed-field bytes, reading one byte past the declared `comment_length` hits
end-of-file exactly (`verifiesAt`) — and then the first verifying candidate
is returned: every earlier magic occurrence in range failed verification
(embedded magics are skipped, the scan having resumed from the byte after
the failed candidate's start), the returned record holding that candidate's
parsed fields.  (ii) `IOError` arises exactly from a candidate in range
whose 18 fixed-field bytes run past end-of-file when no candidate verifies.
(iii) The EOCD-not-found `InvalidZipArchive` error occurs exactly when
every candidate in range fails verification with its fixed fields
readable. -/
theorem c3_locator_amended (d : List Nat) :
    (∀ e2, ZipEOCD.from_reader d = .ok e2 →
      ∃ p junk, scanLB d ≤ p ∧ magicAt d p ∧ verifiesAt d p ∧
        (∀ q, scanLB d ≤ q → q < p → magicAt d q → ¬ verifiesAt d q) ∧
        e2 = parsedEOCDAt d p junk) ∧
    ((∃ p, scanLB d ≤ p ∧ magicAt d p ∧ verifiesAt d p) →
      ∃ p junk, scanLB d ≤ p ∧ magicAt d p ∧ verifiesAt d p ∧
        (∀ q, scanLB d ≤ q → q < p → magicAt d q → ¬ verifiesAt d q) ∧
        ZipEOCD.from_reader d = .ok (parsedEOCDAt d p junk)) ∧
    (ZipEOCD.from_reader d = .error .ioError →
      ∃ p, scanLB d ≤ p ∧ magicAt d p ∧ d.length < p + 22 ∧
        ∀ q, scanLB d ≤ q → q < p → magicAt d q → ¬ verifiesAt d q) ∧
    ((∀ p, scanLB d ≤ p → magicAt d p → ¬ verifiesAt d p) →
      (∃ p, scanLB d ≤ p ∧ magicAt d p ∧ d.length < p + 22) →
      ZipEOCD.from_reader d = .error .ioError) ∧
    ((∀ p, scanLB d ≤ p → magicAt d p → ¬ verifiesAt d p ∧ p + 22 ≤ d.length) →
      ZipEOCD.from_reader d = .error .invalidZipArchive) ∧
    (ZipEOCD.from_reader d = .error .invalidZipArchive →
      ∀ p, scanLB d ≤ p → magicAt d p → ¬ verifiesAt d p ∧ p + 22 ≤ d.length) :=
  have hs := from_reader_scanOutcome d
  have he := scanOutcome_elim hs
  have hf := scanOutcome_forward hs
  ⟨he.1, hf.1, he.2.1, hf.2.1, he.2.2, hf.2.2⟩

/-! ## C2 — load-then-serialize as the identity: parse-print lemmas -/

theorem cd_set_lhp_noop (c : ZipCDEntry) (x : Nat) (hx : x = c.local_header_position) :
    { c with local_header_position := x } = c := by
  subst hx
  cases c
  rfl

theorem eocd_update_noop (e : ZipEOCD) (x y : Nat)
    (hx : x = e.cd_starting_position) (hy : y = e.cd_size) :
    { e with cd_starting_position := x, cd_size := y } = e := by
  subst hx
  subst hy
  cases e
  rfl

theorem lfh_set_flag_noop {l : ZipLocalFileHeader}
    (h : l.general_purpose_flags ||| UTF8_FLAG_BIT = l.general_purpose_flags) :
    l.set_utf8_encoded_flag = l := by
  unfold ZipLocalFileHeader.set_utf8_encoded_flag
  rw [h]

theorem parsedEOCDAt_fields (d : List Nat) (p : Nat) (junk : List Nat) :
    (parsedEOCDAt d p junk).cd_starting_position = u32At d (p + 16) ∧
    (parsedEOCDAt d p junk).cd_size = u32At d (p + 12) ∧
    (parsedEOCDAt d p junk).comment_length = u16At d (p + 20) ∧
    (parsedEOCDAt d p junk).comment = junk ++ extractBytes d (p + 22) d.length ∧
    (parsedEOCDAt d p junk).starting_position_with_signature = p ∧
    (parsedEOCDAt d p junk).n_cd_entries = u16At d (p + 10) :=
  ⟨rfl, rfl, rfl, rfl, rfl, rfl⟩

theorem cd_read_ok_elim {d : List Nat} {p : Nat} {c : ZipCDEntry} {q : Nat}
    (h : ZipCDEntry.read_and_generate_from_signature d p = .ok (c, q)) :
    extractBytes d p (p + 4) = CD_MAGIC ∧
    c = ZipCDEntry.withBuffers d (p + 4) ∧
    q = p + 4 + 42 + (ZipCDEntry.parseFixed d (p + 4)).file_name_length
      + (ZipCDEntry.parseFixed d (p + 4)).extra_field_length
      + (ZipCDEntry.parseFixed d (p + 4)).file_comment_length ∧
    q ≤ d.length := by
  unfold ZipCDEntry.read_and_generate_from_signature at h
  split at h
  · split at h
    · rename_i hmag
      unfold ZipCDEntry.read_from_eocd_next_signature at h
      split at h
      · split at h
        · cases h
        · split at h
          · split at h
            · split at h
              · rename_i hfc
                rw [Except.ok.injEq, Prod.mk.injEq] at h
                obtain ⟨hc, hq⟩ := h
                refine ⟨hmag, hc.symm, hq.symm, ?_⟩
                rw [← hq]
                exact hfc
              · cases h
            · cases h
          · cases h
      · cases h
    · cases h
  · cases h

theorem cd_read_print {d : List Nat} {p : Nat} {c : ZipCDEntry} {q : Nat}
    (hb : bytesLt d)
    (h : ZipCDEntry.read_and_generate_from_signature d p = .ok (c, q)) :
    c.writeBytes = extractBytes d p q ∧ p + c.writeCount = q := by
  obtain ⟨hmag, hc, hq, hqlen⟩ := cd_read_ok_elim h
  subst hc
  subst hq
  have w16x : ∀ a b : Nat, a + 2 = b → b ≤ d.length →
      w16 (u16At d a) = extractBytes d a b := by
    intro a b hab h2
    rw [← hab]
    exact @w16_spec d a hb (by omega)
  have w32x : ∀ a b : Nat, a + 4 = b → b ≤ d.length →
      w32 (u32At d a) = extractBytes d a b := by
    intro a b hab h2
    rw [← hab]
    exact @w32_spec d a hb (by omega)
  have foldx : ∀ x y : Nat, p ≤ x → x ≤ y →
      extractBytes d p x ++ extractBytes d x y = extractBytes d p y :=
    fun x y hx hy => extractBytes_append hx hy
  simp only [ZipCDEntry.writeBytes, ZipCDEntry.writeCount, ZipCDEntry.withBuffers,
    ZipCDEntry.parseFixed] at hqlen ⊢
  rw [show p + 4 + 2 = p + 6 from by omega, show p + 4 + 4 = p + 8 from by omega,
      show p + 4 + 6 = p + 10 from by omega, show p + 4 + 8 = p + 12 from by omega,
      show p + 4 + 10 = p + 14 from by omega, show p + 4 + 12 = p + 16 from by omega,
      show p + 4 + 16 = p + 20 from by omega, show p + 4 + 20 = p + 24 from by omega,
      show p + 4 + 24 = p + 28 from by omega, show p + 4 + 26 = p + 30 from by omega,
      show p + 4 + 28 = p + 32 from by omega, show p + 4 + 30 = p + 34 from by omega,
      show p + 4 + 32 = p + 36 from by omega, show p + 4 + 34 = p + 38 from by omega,
      show p + 4 + 38 = p + 42 from by omega, show p + 4 + 42 = p + 46 from by omega]
  constructor
  · rw [← hmag,
      w16x (p + 4) (p + 6) (by omega) (by omega),
      w16x (p + 6) (p + 8) (by omega) (by omega),
      w16x (p + 8) (p + 10) (by omega) (by omega),
      w16x (p + 10) (p + 12) (by omega) (by omega),
      w16x (p + 12) (p + 14) (by omega) (by omega),
      w16x (p + 14) (p + 16) (by omega) (by omega),
      w32x (p + 16) (p + 20) (by omega) (by omega),
      w32x (p + 20) (p + 24) (by omega) (by omega),
      w32x (p + 24) (p + 28) (by omega) (by omega),
      w16x (p + 28) (p + 30) (by omega) (by omega),
      w16x (p + 30) (p + 32) (by omega) (by omega),
      w16x (p + 32) (p + 34) (by omega) (by omega),
      w16x (p + 34) (p + 36) (by omega) (by omega),
      w16x (p + 36) (p + 38) (by omega) (by omega),
      w32x (p + 38) (p + 42) (by omega) (by omega),
      w32x (p + 42) (p + 46) (by omega) (by omega)]
    rw [foldx (p + 4) (p + 6) (by omega) (by omega),
      foldx (p + 6) (p + 8) (by omega) (by omega),
      foldx (p + 8) (p + 10) (by omega) (by omega),
      foldx (p + 10) (p + 12) (by omega) (by omega),
      foldx (p + 12) (p + 14) (by omega) (by omega),
      foldx (p + 14) (p + 16) (by omega) (by omega),
      foldx (p + 16) (p + 20) (by omega) (by omega),
      foldx (p + 20) (p + 24) (by omega) (by omega),
      foldx (p + 24) (p + 28) (by omega) (by omega),
      foldx (p + 28) (p + 30) (by omega) (by omega),
      foldx (p + 30) (p + 32) (by omega) (by omega),
      foldx (p + 32) (p + 34) (by omega) (by omega),
      foldx (p + 34) (p + 36) (by omega) (by omega),
      foldx (p + 36) (p + 38) (by omega) (by omega),
      foldx (p + 38) (p + 42) (by omega) (by omega),
      foldx (p + 42) (p + 46) (by omega) (by omega),
      foldx (p + 46) (p + 46 + u16At d (p + 28)) (by omega) (by omega),
      foldx (p + 46 + u16At d (p + 28))
        (p + 46 + u16At d (p + 28) + u16At d (p + 30)) (by omega) (by omega),
      foldx (p + 46 + u16At d (p + 28) + u16At d (p + 30))
        (p + 46 + u16At d (p + 28) + u16At d (p + 30) + u16At d (p + 32))
        (by omega) (by omega)]
  · omega

theorem cdLoop_print :
    ∀ (n : Nat) (d : List Nat) (p : Nat) (l : List ZipCDEntry) (q : Nat),
      bytesLt d → ZipCDEntry.cdLoopAux d p n = .ok (l, q) →
      cdWriteBytesAll l = extractBytes d p q ∧ p + cdWriteCountSum l = q := by
  intro n
  induction n with
  | zero =>
    intro d p l q hb h
    cases h
    constructor
    · rw [extractBytes_nil]
      rfl
    · rfl
  | succ n ih =>
    intro d p l q hb h
    rw [cdLoopAux_succ] at h
    split at h
    · cases h
    · rename_i c1 q1 hread
      split at h
      · cases h
      · rename_i l1 r1 hloop
        cases h
        obtain ⟨hw, hcnt⟩ := cd_read_print hb hread
        obtain ⟨hw2, hcnt2⟩ := ih d q1 l1 q hb hloop
        constructor
        · show c1.writeBytes ++ cdWriteBytesAll l1 = extractBytes d p q
          rw [hw, hw2]
          exact extractBytes_append (by omega) (by omega)
        · show p + (c1.writeCount + cdWriteCountSum l1) = q
          omega

theorem lfh_print_core {d : List Nat} {p : Nat} (hb : bytesLt d)
    (hmag : extractBytes d p (p + 4) = LOCAL_FILE_MAGIC)
    (hde : p + 30 + u16At d (p + 26) + u16At d (p + 28) + u32At d (p + 18) ≤ d.length) :
    LOCAL_FILE_MAGIC ++ w16 (u16At d (p + 4)) ++ w16 (u16At d (p + 6))
      ++ w16 (u16At d (p + 8)) ++ w16 (u16At d (p + 10)) ++ w16 (u16At d (p + 12))
      ++ w32 (u32At d (p + 14)) ++ w32 (u32At d (p + 18)) ++ w32 (u32At d (p + 22))
      ++ w16 (u16At d (p + 26)) ++ w16 (u16At d (p + 28))
      ++ extractBytes d (p + 30) (p + 30 + u16At d (p + 26))
      ++ extractBytes d (p + 30 + u16At d (p + 26))
          (p + 30 + u16At d (p + 26) + u16At d (p + 28))
      ++ extractBytes d (p + 30 + u16At d (p + 26) + u16At d (p + 28))
          (p + 30 + u16At d (p + 26) + u16At d (p + 28) + u32At d (p + 18))
      = extractBytes d p
          (p + 30 + u16At d (p + 26) + u16At d (p + 28) + u32At d (p + 18)) := by
  have w16x : ∀ a b : Nat, a + 2 = b → b ≤ d.length →
      w16 (u16At d a) = extractBytes d a b := by
    intro a b hab h2
    rw [← hab]
    exact @w16_spec d a hb (by omega)
  have w32x : ∀ a b : Nat, a + 4 = b → b ≤ d.length →
      w32 (u32At d a) = extractBytes d a b := by
    intro a b hab h2
    rw [← hab]
    exact @w32_spec d a hb (by omega)
  have foldx : ∀ x y : Nat, p ≤ x → x ≤ y →
      extractBytes d p x ++ extractBytes d x y = extractBytes d p y :=
    fun x y hx hy => extractBytes_append hx hy
  rw [← hmag,
    w16x (p + 4) (p + 6) (by omega) (by omega),
    w16x (p + 6) (p + 8) (by omega) (by omega),
    w16x (p + 8) (p + 10) (by omega) (by omega),
    w16x (p + 10) (p + 12) (by omega) (by omega),
    w16x (p + 12) (p + 14) (by omega) (by omega),
    w32x (p + 14) (p + 18) (by omega) (by omega),
    w32x (p + 18) (p + 22) (by omega) (by omega),
    w32x (p + 22) (p + 26) (by omega) (by omega),
    w16x (p + 26) (p + 28) (by omega) (by omega),
    w16x (p + 28) (p + 30) (by omega) (by omega)]
  rw [foldx (p + 4) (p + 6) (by omega) (by omega),
    foldx (p + 6) (p + 8) (by omega) (by omega),
    foldx (p + 8) (p + 10) (by omega) (by omega),
    foldx (p + 10) (p + 12) (by omega) (by omega),
    foldx (p + 12) (p + 14) (by omega) (by omega),
    foldx (p + 14) (p + 18) (by omega) (by omega),
    foldx (p + 18) (p + 22) (by omega) (by omega),
    foldx (p + 22) (p + 26) (by omega) (by omega),
    foldx (p + 26) (p + 28) (by omega) (by omega),
    foldx (p + 28) (p + 30) (by omega) (by omega),
    foldx (p + 30) (p + 30 + u16At d (p + 26)) (by omega) (by omega),
    foldx (p + 30 + u16At d (p + 26))
      (p + 30 + u16At d (p + 26) + u16At d (p + 28)) (by omega) (by omega),
    foldx (p + 30 + u16At d (p + 26) + u16At d (p + 28))
      (p + 30 + u16At d (p + 26) + u16At d (p + 28) + u32At d (p + 18))
      (by omega) (by omega)]

theorem dd_print_append {d : List Nat} {p E : Nat} (hb : bytesLt d) (A : List Nat)
    (hA : A = extractBytes d p E) (hpE : p ≤ E) (h12 : E + 12 ≤ d.length) :
    A ++ (w32 (u32At d E) ++ w32 (u32At d (E + 4)) ++ w32 (u32At d (E + 8)))
      = extractBytes d p (E + 12) := by
  subst hA
  have e1 := @w32_spec d E hb (by omega)
  have e2 := @w32_spec d (E + 4) hb (by omega)
  have e3 := @w32_spec d (E + 8) hb (by omega)
  rw [e1, e2, e3, show E + 4 + 4 = E + 8 from by omega,
    show E + 8 + 4 = E + 12 from by omega]
  have g1 : extractBytes d E (E + 4) ++ extractBytes d (E + 4) (E + 8)
      = extractBytes d E (E + 8) := extractBytes_append (by omega) (by omega)
  rw [g1]
  have g2 : extractBytes d E (E + 8) ++ extractBytes d (E + 8) (E + 12)
      = extractBytes d E (E + 12) := extractBytes_append (by omega) (by omega)
  rw [g2]
  exact extractBytes_append (by omega) (by omega)

theorem lfh_read_print {d : List Nat} {cd : ZipCDEntry} {lh : ZipLocalFileHeader} {r : Nat}
    (hb : bytesLt d)
    (h : ZipLocalFileHeader.from_central_directory d cd = .ok (lh, r)) :
    lh.writeBytes = extractBytes d cd.local_header_position r ∧
    cd.local_header_position + lh.writeCount = r := by
  unfold ZipLocalFileHeader.from_central_directory at h
  dsimp only at h
  generalize hp : cd.local_header_position = p at h ⊢
  split at h
  · split at h
    · rename_i hmag
      split at h
      · split at h
        · split at h
          · split at h
            · rename_i hde
              simp only [ZipLocalFileHeader.dataEnd, ZipLocalFileHeader.parseFixed] at hde
              split at h
              · split at h
                · rename_i hde12
                  simp only [ZipLocalFileHeader.dataEnd,
                    ZipLocalFileHeader.parseFixed] at hde12
                  rw [Except.ok.injEq, Prod.mk.injEq] at h
                  obtain ⟨hlh, hr⟩ := h
                  rw [← hlh, ← hr]
                  simp only [ZipLocalFileHeader.writeBytes, ZipLocalFileHeader.writeCount,
                    ZipLocalFileHeader.withBuffers, ZipLocalFileHeader.parseFixed,
                    ZipLocalFileHeader.dataEnd, ZipDataDescriptor.writeBytes]
                  constructor
                  · exact dd_print_append hb _ (lfh_print_core hb hmag (by omega))
                      (by omega) (by omega)
                  · omega
                · cases h
              · rw [Except.ok.injEq, Prod.mk.injEq] at h
                obtain ⟨hlh, hr⟩ := h
                rw [← hlh, ← hr]
                simp only [ZipLocalFileHeader.writeBytes, ZipLocalFileHeader.writeCount,
                  ZipLocalFileHeader.withBuffers, ZipLocalFileHeader.parseFixed,
                  ZipLocalFileHeader.dataEnd]
                constructor
                · rw [List.append_nil]
                  exact lfh_print_core hb hmag (by omega)
                · omega
            · cases h
          · cases h
        · cases h
      · cases h
    · cases h
  · cases h

theorem lfhChain_le :
    ∀ (cds : List ZipCDEntry) (d : List Nat) (p q : Nat),
      bytesLt d → lfhChain d cds p q → p ≤ q := by
  intro cds
  induction cds with
  | nil =>
    intro d p q hb h
    exact Nat.le_of_eq h
  | cons cd rest ih =>
    intro d p q hb h
    obtain ⟨hlhp, lh, r, hok, hfnl, hflag, hrest⟩ := h
    obtain ⟨_, hcnt⟩ := lfh_read_print hb hok
    have h2 := ih d r q hb hrest
    omega

theorem outputLoop_chain :
    ∀ (cds : List ZipCDEntry) (d : List Nat) (pos q : Nat),
      bytesLt d → q < 4294967296 → lfhChain d cds pos q →
      outputLoop d cds pos = .ok (extractBytes d pos q, q, cds) := by
  intro cds
  induction cds with
  | nil =>
    intro d pos q hb hq h
    have h' : pos = q := h
    subst h'
    rw [extractBytes_nil]
    rfl
  | cons cd rest ih =>
    intro d pos q hb hq h
    obtain ⟨hlhp, lh, r, hok, hfnl, hflag, hrest⟩ := h
    obtain ⟨hw, hcnt⟩ := lfh_read_print hb hok
    have hrq := lfhChain_le rest d r q hb hrest
    have hposr : pos ≤ r := by omega
    unfold outputLoop
    rw [hok]
    dsimp only
    rw [if_neg (not_ne_iff.mpr hfnl)]
    have hlh3 : (if cd.is_encoded_in_utf8 = true then lh.set_utf8_encoded_flag else lh)
        = lh := by
      by_cases hu : cd.is_encoded_in_utf8 = true
      · rw [if_pos hu]
        exact lfh_set_flag_noop (hflag hu)
      · rw [if_neg hu]
    rw [hlh3, show pos + lh.writeCount = r from by omega, ih d r q hb hq hrest]
    dsimp only
    have hmod : pos % 4294967296 = cd.local_header_position := by
      rw [Nat.mod_eq_of_lt (by omega)]
      omega
    rw [cd_set_lhp_noop cd _ hmod, hw, hlhp, extractBytes_append hposr hrq]

theorem eocd_print_extract {d : List Nat} {p : Nat} (hb : bytesLt d)
    (hm : magicAt d p) (hv : verifiesAt d p) :
    (parsedEOCDAt d p []).writeBytes = extractBytes d p d.length := by
  obtain ⟨h22, hlen⟩ := hv
  have w16x : ∀ a b : Nat, a + 2 = b → b ≤ d.length →
      w16 (u16At d a) = extractBytes d a b := by
    intro a b hab h2
    rw [← hab]
    exact @w16_spec d a hb (by omega)
  have w32x : ∀ a b : Nat, a + 4 = b → b ≤ d.length →
      w32 (u32At d a) = extractBytes d a b := by
    intro a b hab h2
    rw [← hab]
    exact @w32_spec d a hb (by omega)
  have foldx : ∀ x y : Nat, p ≤ x → x ≤ y →
      extractBytes d p x ++ extractBytes d x y = extractBytes d p y :=
    fun x y hx hy => extractBytes_append hx hy
  have hmagx : extractBytes d p (p + 4) = EOCD_MAGIC := hm
  simp only [ZipEOCD.writeBytes, parsedEOCDAt]
  rw [List.nil_append, ← hmagx,
    w16x (p + 4) (p + 6) (by omega) (by omega),
    w16x (p + 6) (p + 8) (by omega) (by omega),
    w16x (p + 8) (p + 10) (by omega) (by omega),
    w16x (p + 10) (p + 12) (by omega) (by omega),
    w32x (p + 12) (p + 16) (by omega) (by omega),
    w32x (p + 16) (p + 20) (by omega) (by omega),
    w16x (p + 20) (p + 22) (by omega) (by omega)]
  rw [foldx (p + 4) (p + 6) (by omega) (by omega),
    foldx (p + 6) (p + 8) (by omega) (by omega),
    foldx (p + 8) (p + 10) (by omega) (by omega),
    foldx (p + 10) (p + 12) (by omega) (by omega),
    foldx (p + 12) (p + 16) (by omega) (by omega),
    foldx (p + 16) (p + 20) (by omega) (by omega),
    foldx (p + 20) (p + 22) (by omega) (by omega),
    foldx (p + 22) d.length (by omega) (by omega)]

theorem loadThenOutputAux_ok (d : List Nat) (eocd : ZipEOCD) (cds : List ZipCDEntry) :
    loadThenOutputAux d (.ok (eocd, cds))
      = InputZIPArchive.output_archive_with_central_directory_file_names d eocd cds := rfl

/-- [C2, amended] `serialize(load(X))` reproduces `X` byte-for-byte for every
archive `X` that loads successfully and satisfies the layout the writer
assumes: the local headers referenced by the central directory tile the
region from offset 0 up to `cd_starting_position` contiguously in entry
order, each keeping its entry's name length and already carrying the UTF-8
flag whenever its entry does (`lfhChain`, subsuming "no entry needs a
local-header name-length change"); the EOCD's comment buffer is exactly
`comment_length` bytes; and its `cd_size` is consistent
(`cd_starting_position + cd_size` reaches the EOCD signature).  Without the
extra hypotheses the round trip can differ from `X`
(`c2_roundtrip_counterexample`). -/
theorem c2_roundtrip_amended (d : List Nat) (eocd : ZipEOCD) (cds : List ZipCDEntry)
    (hb : bytesLt d)
    (hnew : InputZIPArchive.new d = .ok (eocd, cds))
    (hchain : lfhChain d cds 0 eocd.cd_starting_position)
    (hcmt : eocd.comment_length = eocd.comment.length)
    (hsize : eocd.cd_starting_position + eocd.cd_size
      = eocd.starting_position_with_signature) :
    loadThenOutput d = .ok d := by
  have hnew0 := hnew
  unfold InputZIPArchive.new at hnew
  rw [newAux_ok_iff] at hnew
  obtain ⟨hfr, hall⟩ := hnew
  obtain ⟨hokelim, _, _⟩ := scanOutcome_elim (from_reader_scanOutcome d)
  obtain ⟨p, junk, hlb, hm, hv, hmin, heq⟩ := hokelim eocd hfr
  obtain ⟨hcsp, hcsz, hclen, hcom, hswsig, hncd⟩ := parsedEOCDAt_fields d p junk
  have hjunk : junk = [] := by
    have h1 : eocd.comment_length = u16At d (p + 20) := by rw [heq]; exact hclen
    have h2 : eocd.comment = junk ++ extractBytes d (p + 22) d.length := by
      rw [heq]; exact hcom
    have h3 : (extractBytes d (p + 22) d.length).length = u16At d (p + 20) := by
      rw [extractBytes_length]
      obtain ⟨h22, hlen⟩ := hv
      omega
    have h4 : eocd.comment.length = junk.length + u16At d (p + 20) := by
      rw [h2, List.length_append, h3]
    have h5 : junk.length = 0 := by omega
    exact List.length_eq_zero.mp h5
  subst hjunk
  have e1 : eocd.cd_starting_position = u32At d (p + 16) := by rw [heq]; exact hcsp
  have e2 : eocd.starting_position_with_signature = p := by rw [heq]; exact hswsig
  have e3 : eocd.cd_size = u32At d (p + 12) := by rw [heq]; exact hcsz
  have hcsp32 : eocd.cd_starting_position < 4294967296 := by
    rw [e1]
    exact u32At_lt hb _
  have hcsz32 : eocd.cd_size < 4294967296 := by
    rw [e3]
    exact u32At_lt hb _
  unfold ZipCDEntry.all_from_eocd at hall
  split at hall
  · cases hall
  · rename_i l q' hcdl
    split at hall
    · rename_i hqe
      rw [Except.ok.injEq] at hall
      subst hall
      obtain ⟨hcdw, hcdcnt⟩ :=
        cdLoop_print eocd.n_cd_entries d eocd.cd_starting_position l q' hb hcdl
      have hout := outputLoop_chain l d 0 eocd.cd_starting_position hb hcsp32 hchain
      unfold loadThenOutput
      rw [hnew0, loadThenOutputAux_ok]
      unfold InputZIPArchive.output_archive_with_central_directory_file_names
      rw [hout]
      dsimp only
      have hmod1 : eocd.cd_starting_position % 4294967296 = eocd.cd_starting_position :=
        Nat.mod_eq_of_lt hcsp32
      have hsum : cdWriteCountSum l = eocd.cd_size := by omega
      have hmod2 : cdWriteCountSum l % 4294967296 = eocd.cd_size := by
        rw [hsum]
        exact Nat.mod_eq_of_lt hcsz32
      rw [hmod1, hmod2, eocd_update_noop eocd eocd.cd_starting_position
        eocd.cd_size rfl rfl]
      rw [hcdw, hqe, heq, hcsp, hswsig, eocd_print_extract hb hm hv]
      have hv2 := hv
      obtain ⟨h22v, hlenv⟩ := hv2
      have hf1 : extractBytes d 0 (u32At d (p + 16)) ++ extractBytes d (u32At d (p + 16)) p
          = extractBytes d 0 p := extractBytes_append (Nat.zero_le _) (by omega)
      rw [hf1]
      have hf2 : extractBytes d 0 p ++ extractBytes d p d.length
          = extractBytes d 0 d.length := extractBytes_append (Nat.zero_le _) (by omega)
      rw [hf2, extractBytes_whole]
    · cases hall

/-- [C2, witness] The amended round trip at the 22-byte clean EOCD-only
archive `c2clean`: it loads as (`c2cleanEocd`, no entries), satisfies every
layout hypothesis, and serializes back to exactly `c2clean`. -/
theorem c2_witness : loadThenOutput c2clean = .ok c2clean :=
  c2_roundtrip_amended c2clean c2cleanEocd [] (by decide) (by decide) rfl
    (by decide) (by decide)
